import Mathlib

/-!
Verification development for a three-game adversarial engine
(a 6x6 Othello variant, a misere Nim-like piece-taking game, and a
Mod-M card game). Each definition is a shallow embedding of the
corresponding function in the source pages
(PieceTakingGame.tsx, StrangeOthello.tsx, ModMGame.tsx and an earlier
revision of the Mod-M page). Machine numbers are modelled as Nat or Int;
the JavaScript values in play are small non-negative integers and exact
integer scores, so no overflow or floating-point behaviour is involved.
-/

namespace PieceTaking

/-- Side to move in the piece-taking game: the human player or the AI. -/
inductive NimTurn where
  | player
  | ai
deriving DecidableEq, Repr

/-- Heap colour in the piece-taking game. -/
inductive NimColor where
  | blue
  | yellow
  | red
deriving DecidableEq, Repr

/-- Embedding of the GameState interface of PieceTakingGame.tsx.
The lastAIMove record { color, count } is modelled as a pair. -/
structure GameState where
  bluePieces : Nat
  yellowPieces : Nat
  redPieces : Nat
  currentTurn : NimTurn
  selectedColor : NimColor
  selectedCount : Nat
  gameOver : Bool
  winner : Option NimTurn
  lastAIMove : Option (NimColor × Nat)
deriving DecidableEq, Repr

/-- Remaining pieces of a given colour (helper getCountForColor of the source,
taken on an explicit state like getAvailableColorsFromState does). -/
def piecesOf (s : GameState) : NimColor → Nat
  | .blue => s.bluePieces
  | .yellow => s.yellowPieces
  | .red => s.redPieces

/-- Embedding of getAvailableColorsFromState: colours with at least one piece,
in the fixed order blue, yellow, red. -/
def getAvailableColorsFromState (s : GameState) : List NimColor :=
  (if s.bluePieces > 0 then [NimColor.blue] else []) ++
  (if s.yellowPieces > 0 then [NimColor.yellow] else []) ++
  (if s.redPieces > 0 then [NimColor.red] else [])

/-- Total number of pieces on the board. -/
def total (s : GameState) : Nat :=
  s.bluePieces + s.yellowPieces + s.redPieces

/-- Nim-sum (bitwise XOR) of the three heap counts, as computed in the
AI turn handler of the source. -/
def nimXor (s : GameState) : Nat :=
  s.bluePieces ^^^ s.yellowPieces ^^^ s.redPieces

/-- Shared re-selection block of the source (it appears verbatim both at the
end of confirmPlayerMove and at the end of the AI turn handler): if the
currently selected colour ran out, switch to the first available colour and
reset the selectable count, otherwise clamp the count to the remaining pile. -/
def reselectAvailable (s : GameState) : GameState :=
  let available := getAvailableColorsFromState s
  if s.selectedColor ∉ available then
    { s with
      selectedColor := available.headD s.selectedColor,
      selectedCount := if available.isEmpty then 0 else 1 }
  else
    { s with selectedCount := min s.selectedCount (piecesOf s s.selectedColor) }

/-- Embedding of confirmPlayerMove: subtract the selected count from the
selected heap (the source clamps with Math.max at 0, which is Nat
subtraction), hand the turn to the AI, and either end the game (the player
emptied the board, so under the misere rule the AI wins) or re-normalise the
selection and clear the last AI move. -/
def confirmPlayerMove (s : GameState) : GameState :=
  let s1 :=
    match s.selectedColor with
    | .blue => { s with bluePieces := s.bluePieces - s.selectedCount }
    | .yellow => { s with yellowPieces := s.yellowPieces - s.selectedCount }
    | .red => { s with redPieces := s.redPieces - s.selectedCount }
  let s2 := { s1 with currentTurn := NimTurn.ai }
  if s2.bluePieces + s2.yellowPieces + s2.redPieces = 0 then
    { s2 with gameOver := true, winner := some NimTurn.ai }
  else
    { reselectAvailable s2 with lastAIMove := none }

/-- Embedding of the nim-sum loop of the AI turn handler: for each colour in
the order blue, yellow, red, compute target = pile xor nimSum and, if
target < pile, remove pile - target pieces from that pile. Returns the chosen
colour and removal count, or none when no colour passes the test (the source
then falls through to its random move). -/
def nimLoopMove (blue yellow red : Nat) : Option (NimColor × Nat) :=
  let nimSum := blue ^^^ yellow ^^^ red
  let targetB := blue ^^^ nimSum
  let targetY := yellow ^^^ nimSum
  let targetR := red ^^^ nimSum
  if targetB < blue then some (NimColor.blue, blue - targetB)
  else if targetY < yellow then some (NimColor.yellow, yellow - targetY)
  else if targetR < red then some (NimColor.red, red - targetR)
  else none

/-- Apply an AI removal to the state: decrement the chosen pile, remember the
chosen colour as selected and record the move as lastAIMove, exactly as the
AI turn handler does for both its nim-sum move and its random move. -/
def aiApplyMove (s : GameState) (color : NimColor) (removal : Nat) : GameState :=
  match color with
  | .blue =>
    { s with bluePieces := s.bluePieces - removal,
             selectedColor := color, lastAIMove := some (color, removal) }
  | .yellow =>
    { s with yellowPieces := s.yellowPieces - removal,
             selectedColor := color, lastAIMove := some (color, removal) }
  | .red =>
    { s with redPieces := s.redPieces - removal,
             selectedColor := color, lastAIMove := some (color, removal) }

/-- Embedding of the random fallback of the AI turn handler. The source draws
a uniformly random available colour and a uniformly random removal between 1
and min 2 pile; the draws are modelled by the oracle rho, which stands for
the Math.random results (an available colour together with such a removal).
Every theorem below either quantifies over rho or never reaches this branch. -/
def aiRandomMove (rho : GameState → NimColor × Nat) (s : GameState) : GameState :=
  let available := getAvailableColorsFromState s
  if available.isEmpty then s
  else
    let pick := rho s
    aiApplyMove s pick.1 pick.2

/-- Embedding of the AI turn handler (the useEffect body): when it is the AI
turn and the game is not over, play the nim-sum move if the nim-sum is
non-zero and the loop finds one, otherwise play the random fallback; then, if
the board became empty, the AI took the last piece so the player wins
(misere rule), otherwise re-normalise the selection; finally hand the turn
back to the player. -/
def aiStep (rho : GameState → NimColor × Nat) (s : GameState) : GameState :=
  if s.currentTurn = NimTurn.ai ∧ s.gameOver = false then
    let nimSum := s.bluePieces ^^^ s.yellowPieces ^^^ s.redPieces
    let sMoved :=
      if nimSum ≠ 0 then
        match nimLoopMove s.bluePieces s.yellowPieces s.redPieces with
        | some (c, k) => aiApplyMove s c k
        | none => aiRandomMove rho s
      else aiRandomMove rho s
    let sEnd :=
      if sMoved.bluePieces + sMoved.yellowPieces + sMoved.redPieces = 0 then
        { sMoved with gameOver := true, winner := some NimTurn.player }
      else reselectAvailable sMoved
    { sEnd with currentTurn := NimTurn.player }
  else s

/-- Initial state of PieceTakingGame.tsx: heaps blue 7, yellow 6, red 2, the
player to move. -/
def initState : GameState :=
  { bluePieces := 7, yellowPieces := 6, redPieces := 2,
    currentTurn := NimTurn.player, selectedColor := NimColor.blue,
    selectedCount := 1, gameOver := false, winner := none, lastAIMove := none }

/-- Embedding of updateGameState: push the current state on the history and
replace the current state. The controller state is the pair
(history, current). -/
def updateGameState (p : List GameState × GameState) (next : GameState) :
    List GameState × GameState :=
  (p.1 ++ [p.2], next)

/-- Player move at the controller level: confirmPlayerMove through
updateGameState. -/
def confirmPlayerMoveH (p : List GameState × GameState) :
    List GameState × GameState :=
  updateGameState p (confirmPlayerMove p.2)

/-- AI move at the controller level: the useEffect runs only when it is the
AI turn on a game that is not over, and then pushes through updateGameState. -/
def aiStepH (rho : GameState → NimColor × Nat) (p : List GameState × GameState) :
    List GameState × GameState :=
  if p.2.currentTurn = NimTurn.ai ∧ p.2.gameOver = false then
    updateGameState p (aiStep rho p.2)
  else p

/-- Embedding of undoLastMove: when the history has at least two entries,
drop the two most recent snapshots and make the earlier of them the current
state. -/
def undoLastMove (p : List GameState × GameState) : List GameState × GameState :=
  if p.1.length < 2 then p
  else (p.1.take (p.1.length - 2), p.1.getD (p.1.length - 2) p.2)

/-- A human strategy: given a state, the colour and count the player selects
before pressing confirm. -/
def Strategy : Type := GameState → NimColor × Nat

/-- A strategy is valid when, as long as pieces remain, it removes at least
one piece and at most the selected pile (exactly what the arrow buttons of
the page allow). -/
def ValidStrategy (sigma : Strategy) : Prop :=
  ∀ s : GameState, 0 < total s →
    1 ≤ (sigma s).2 ∧ (sigma s).2 ≤ piecesOf s (sigma s).1

/-- Player move induced by a strategy: the selection setters followed by
confirmPlayerMove. -/
def playerMove (sigma : Strategy) (s : GameState) : GameState :=
  confirmPlayerMove
    { s with selectedColor := (sigma s).1, selectedCount := (sigma s).2 }

/-- Run the game loop for a bounded number of half-moves: the AI turn handler
fires on AI turns, the strategy plays on player turns, and the run stops on a
finished game.  Fuel two times the piece total always reaches the end of the
game (each half-move removes at least one piece on the runs considered). -/
def nimRun (rho : GameState → NimColor × Nat) (sigma : Strategy) :
    Nat → GameState → GameState
  | 0, s => s
  | fuel + 1, s =>
    if s.gameOver then s
    else if s.currentTurn = NimTurn.ai then nimRun rho sigma fuel (aiStep rho s)
    else nimRun rho sigma fuel (playerMove sigma s)

end PieceTaking

namespace StrangeOthello

/-- Cell contents of the 6x6 board. -/
inductive CellState where
  | empty
  | black
  | white
deriving DecidableEq, Repr

/-- Side to move: the human plays black, the AI plays white. -/
inductive Side where
  | black
  | white
deriving DecidableEq, Repr

/-- The cell mark a side plays. -/
def Side.cell : Side → CellState
  | .black => CellState.black
  | .white => CellState.white

/-- The opponent mark, as computed at the top of findValidMoves and
getFlippedPieces. -/
def Side.opponentCell : Side → CellState
  | .black => CellState.white
  | .white => CellState.black

/-- Final result of a finished game. -/
inductive Outcome where
  | black
  | white
  | draw
deriving DecidableEq, Repr

/-- The board of the source is a 6x6 two-dimensional array; every board the
page builds has exactly these dimensions, so it is embedded as a function on
coordinates. -/
abbrev Board := Fin 6 → Fin 6 → CellState

/-- A board position (row, col). -/
abbrev Pos := Fin 6 × Fin 6

/-- The eight compass directions, in the order of the DIRECTIONS constant. -/
def DIRECTIONS : List (Int × Int) :=
  [(-1, 0), (-1, 1), (0, 1), (1, 1), (1, 0), (1, -1), (0, -1), (-1, -1)]

/-- Bounds test of the source loops: 0 <= r < 6 and 0 <= c < 6. -/
def inBounds (r c : Int) : Bool :=
  0 ≤ r ∧ r < 6 ∧ 0 ≤ c ∧ c < 6

/-- Board access at integer coordinates; only ever used behind inBounds, the
out-of-range default is arbitrary. -/
def getCell (b : Board) (r c : Int) : CellState :=
  if h : 0 ≤ r ∧ r < 6 ∧ 0 ≤ c ∧ c < 6 then
    b ⟨r.toNat, by omega⟩ ⟨c.toNat, by omega⟩
  else CellState.empty

/-- Embedding of the direction scan of findValidMoves: walk over opponent
marks and report whether a non-empty opponent run ends on a mark of the
moving side.  The fuel argument only bounds the length of the walk; any fuel
of at least 7 reproduces the while loop, whose runs on a 6x6 board have at
most 5 opponent cells. -/
def scanRay (b : Board) (color : Side) :
    Nat → Int → Int → Int → Int → Bool → Bool
  | 0, _, _, _, _, _ => false
  | fuel + 1, r, c, dr, dc, found =>
    if inBounds r c then
      if getCell b r c = color.opponentCell then
        scanRay b color fuel (r + dr) (c + dc) dr dc true
      else if getCell b r c = color.cell then found
      else false
    else false

/-- A move is valid at an empty cell from which some direction has an
opponent run closed by an own mark (inner loop of findValidMoves). -/
def isValidMove (b : Board) (color : Side) (row col : Fin 6) : Bool :=
  if b row col = CellState.empty then
    DIRECTIONS.any (fun d =>
      scanRay b color 8 ((row : Int) + d.1) ((col : Int) + d.2) d.1 d.2 false)
  else false

/-- Embedding of findValidMoves: all valid positions in row-major order. -/
def findValidMoves (b : Board) (color : Side) : List Pos :=
  (List.finRange 6).flatMap (fun row =>
    (List.finRange 6).filterMap (fun col =>
      if isValidMove b color row col then some (row, col) else none))

/-- Walk of getFlippedPieces in one direction: the list of consecutive
opponent positions together with the first coordinates past the run. -/
def runAndRest (b : Board) (color : Side) :
    Nat → Int → Int → Int → Int → List (Int × Int) × Int × Int
  | 0, r, c, _, _ => ([], r, c)
  | fuel + 1, r, c, dr, dc =>
    if inBounds r c ∧ getCell b r c = color.opponentCell then
      let rest := runAndRest b color fuel (r + dr) (c + dc) dr dc
      ((r, c) :: rest.1, rest.2)
    else ([], r, c)

/-- Embedding of getFlippedPieces: union, in direction order, of every
opponent run that is non-empty and closed by an own mark. -/
def getFlippedPieces (b : Board) (row col : Fin 6) (color : Side) :
    List (Int × Int) :=
  DIRECTIONS.flatMap (fun d =>
    let run := runAndRest b color 8 ((row : Int) + d.1) ((col : Int) + d.2) d.1 d.2
    if run.1 ≠ [] ∧ inBounds run.2.1 run.2.2 ∧ getCell b run.2.1 run.2.2 = color.cell then
      run.1
    else [])

/-- Embedding of placePiece: put the mark on the chosen cell and recolour
every flipped position. -/
def placePiece (b : Board) (row col : Fin 6) (color : Side) : Board :=
  let flipped := getFlippedPieces b row col color
  fun r c =>
    if (r = row ∧ c = col) ∨ ((r : Int), (c : Int)) ∈ flipped then color.cell
    else b r c

/-- All 36 positions in the row-major order of the counting loops. -/
def allPositions : List Pos :=
  (List.finRange 6).flatMap (fun r => (List.finRange 6).map (fun c => (r, c)))

/-- Embedding of countPieces. -/
def countPieces (b : Board) (color : Side) : Nat :=
  allPositions.countP (fun p => decide (b p.1 p.2 = color.cell))

/-- The four corners listed in evaluateBoard. -/
def corners : List Pos := [(0, 0), (0, 5), (5, 0), (5, 5)]

/-- The edge list of evaluateBoard, in its construction order: the whole top
row, the whole bottom row, then the inner cells of the two side columns.
The four corners appear in this list (inside the two full rows). -/
def edges : List Pos :=
  [(0, 0), (0, 1), (0, 2), (0, 3), (0, 4), (0, 5),
   (5, 0), (5, 1), (5, 2), (5, 3), (5, 4), (5, 5),
   (1, 0), (2, 0), (3, 0), (4, 0),
   (1, 5), (2, 5), (3, 5), (4, 5)]

/-- Signed contribution of one cell with weight w: plus w for white, minus w
for black, 0 for empty (the accumulation pattern of the corner and edge
loops of evaluateBoard). -/
def cellScore (b : Board) (w : Int) (p : Pos) : Int :=
  if b p.1 p.2 = CellState.white then w
  else if b p.1 p.2 = CellState.black then -w
  else 0

/-- Embedding of evaluateBoard: piece differential times 3, plus or minus 10
per occupied corner, plus or minus 2 per occupied cell of the edge list,
plus mobility differential times 2 (white-favourable is positive). -/
def evaluateBoard (b : Board) : Int :=
  let blackCount := countPieces b Side.black
  let whiteCount := countPieces b Side.white
  let pieceDifference : Int := (whiteCount : Int) - (blackCount : Int)
  let cornerScore := (corners.map (cellScore b 10)).sum
  let edgeScore := (edges.map (cellScore b 2)).sum
  let whiteMobility := (findValidMoves b Side.white).length
  let blackMobility := (findValidMoves b Side.black).length
  let mobilityScore : Int := (whiteMobility : Int) - (blackMobility : Int)
  pieceDifference * 3 + cornerScore + edgeScore + mobilityScore * 2

/-- Embedding of determineWinner: the side with more pieces, or a draw. -/
def determineWinner (b : Board) : Outcome :=
  let blackCount := countPieces b Side.black
  let whiteCount := countPieces b Side.white
  if blackCount > whiteCount then Outcome.black
  else if whiteCount > blackCount then Outcome.white
  else Outcome.draw

/-- Embedding of the GameState interface of StrangeOthello.tsx. -/
structure GameState where
  board : Board
  currentTurn : Side
  blackScore : Nat
  whiteScore : Nat
  gameOver : Bool
  winner : Option Outcome
  validMoves : List Pos
deriving DecidableEq

/-- The state handleBlackMove builds once the move is accepted. -/
def blackMoveState (s : GameState) (row col : Fin 6) : GameState :=
  let newBoard := placePiece s.board row col Side.black
  let whiteValidMoves := findValidMoves newBoard Side.white
  let nextValidMoves :=
    if whiteValidMoves.length > 0 then whiteValidMoves
    else findValidMoves newBoard Side.black
  { board := newBoard,
    currentTurn := if whiteValidMoves.length > 0 then Side.white else Side.black,
    blackScore := countPieces newBoard Side.black,
    whiteScore := countPieces newBoard Side.white,
    gameOver := decide (whiteValidMoves.length = 0 ∧
      (findValidMoves newBoard Side.black).length = 0),
    winner := none,
    validMoves := nextValidMoves }

/-- Embedding of updateGameState of StrangeOthello.tsx: the new state becomes
current and is appended to the history (this page stores the current state as
the last history entry). -/
def updateGameState (p : List GameState × GameState) (next : GameState) :
    List GameState × GameState :=
  (p.1 ++ [next], next)

/-- Embedding of handleBlackMove: reject silently unless it is the black
turn on a live game and the cell is in validMoves, otherwise apply the move
through updateGameState. -/
def handleBlackMove (p : List GameState × GameState) (row col : Fin 6) :
    List GameState × GameState :=
  let s := p.2
  if s.currentTurn ≠ Side.black ∨ s.gameOver = true ∨ (row, col) ∉ s.validMoves then p
  else updateGameState p (blackMoveState s row col)

/-- Sentinel for Number.NEGATIVE_INFINITY; every reachable score of this
search lies strictly between the two sentinels. -/
def NEG_INFINITY : Int := -1000000

/-- Sentinel for Number.POSITIVE_INFINITY. -/
def POS_INFINITY : Int := 1000000

/-- Return value of the minimax of StrangeOthello.tsx. -/
structure SearchResult where
  score : Int
  move : Option Pos
deriving DecidableEq, Repr

/-- The maximizing loop of minimax: white tries each move, keeps the best
score and first best move, raises alpha with each score and stops once
beta <= alpha. -/
def maxLoop (recur : Board → Int → Int → Option SearchResult) (board : Board) :
    List Pos → Int → Int → Int → Option Pos → Option SearchResult
  | [], _, _, best, bestMove => some { score := best, move := bestMove }
  | mv :: rest, alpha, beta, best, bestMove =>
    let newBoard := placePiece board mv.1 mv.2 Side.white
    match recur newBoard alpha beta with
    | none => none
    | some r =>
      let best' := if r.score > best then r.score else best
      let bestMove' := if r.score > best then some mv else bestMove
      let alpha' := max alpha r.score
      if beta ≤ alpha' then some { score := best', move := bestMove' }
      else maxLoop recur board rest alpha' beta best' bestMove'

/-- The minimizing loop of minimax, mirror image of maxLoop for black. -/
def minLoop (recur : Board → Int → Int → Option SearchResult) (board : Board) :
    List Pos → Int → Int → Int → Option Pos → Option SearchResult
  | [], _, _, best, bestMove => some { score := best, move := bestMove }
  | mv :: rest, alpha, beta, best, bestMove =>
    let newBoard := placePiece board mv.1 mv.2 Side.black
    match recur newBoard alpha beta with
    | none => none
    | some r =>
      let best' := if r.score < best then r.score else best
      let bestMove' := if r.score < best then some mv else bestMove
      let beta' := min beta r.score
      if beta' ≤ alpha then some { score := best', move := bestMove' }
      else minLoop recur board rest alpha beta' best' bestMove'

/-- Embedding of the minimax of StrangeOthello.tsx with an explicit fuel
that bounds the recursion depth; the source recursion consumes one depth per
call, so fuel depth + 1 always suffices (proved below for claim C9).  The
node is a leaf exactly when depth is 0 or the side to move has no valid
moves, in which case the static evaluation is returned with no move. -/
def minimaxAux : Nat → Nat → Board → Int → Int → Bool → Option SearchResult
  | 0, _, _, _, _, _ => none
  | fuel + 1, depth, board, alpha, beta, maximizingPlayer =>
    let color := if maximizingPlayer then Side.white else Side.black
    let validMoves := findValidMoves board color
    if depth = 0 ∨ validMoves = [] then
      some { score := evaluateBoard board, move := none }
    else if maximizingPlayer then
      maxLoop (fun b' a' b'' => minimaxAux fuel (depth - 1) b' a' b'' false)
        board validMoves alpha beta NEG_INFINITY none
    else
      minLoop (fun b' a' b'' => minimaxAux fuel (depth - 1) b' a' b'' true)
        board validMoves alpha beta POS_INFINITY none

/-- The minimax of the source at sufficient fuel. -/
def minimax (depth : Nat) (board : Board) (alpha beta : Int)
    (maximizingPlayer : Bool) : SearchResult :=
  (minimaxAux (depth + 1) depth board alpha beta maximizingPlayer).getD
    { score := evaluateBoard board, move := none }

/-- Spec-side search for claim C3, following the sentence of section 4.2 of
the spec: at a node where the side to move has no legal moves but the other
side has at least one, pass the turn and continue searching; the node is a
leaf only at depth 0 or when neither side can move.  Defined only to be
compared with minimaxAux. -/
def minimaxSpecPassAux : Nat → Nat → Board → Int → Int → Bool → Option SearchResult
  | 0, _, _, _, _, _ => none
  | fuel + 1, depth, board, alpha, beta, maximizingPlayer =>
    let color := if maximizingPlayer then Side.white else Side.black
    let other := if maximizingPlayer then Side.black else Side.white
    let validMoves := findValidMoves board color
    if depth = 0 then some { score := evaluateBoard board, move := none }
    else if validMoves = [] then
      if findValidMoves board other = [] then
        some { score := evaluateBoard board, move := none }
      else
        minimaxSpecPassAux fuel depth board alpha beta (!maximizingPlayer)
    else if maximizingPlayer then
      maxLoop (fun b' a' b'' => minimaxSpecPassAux fuel (depth - 1) b' a' b'' false)
        board validMoves alpha beta NEG_INFINITY none
    else
      minLoop (fun b' a' b'' => minimaxSpecPassAux fuel (depth - 1) b' a' b'' true)
        board validMoves alpha beta POS_INFINITY none

/-- The state the AI effect builds when minimax returned a move. -/
def whiteMoveState (s : GameState) (mv : Pos) : GameState :=
  let newBoard := placePiece s.board mv.1 mv.2 Side.white
  let blackValidMoves := findValidMoves newBoard Side.black
  { board := newBoard,
    currentTurn := if blackValidMoves.length > 0 then Side.black else Side.white,
    blackScore := countPieces newBoard Side.black,
    whiteScore := countPieces newBoard Side.white,
    gameOver := decide (blackValidMoves.length = 0 ∧
      (findValidMoves newBoard Side.white).length = 0),
    winner :=
      if blackValidMoves.length = 0 ∧ (findValidMoves newBoard Side.white).length = 0 then
        some (determineWinner newBoard)
      else none,
    validMoves := blackValidMoves }

/-- Embedding of the AI effect of StrangeOthello.tsx: on a live white turn,
run minimax at depth 4; play the returned move if any, otherwise either end
the game (no side can move) or pass the turn back to black.  Every branch
pushes its new state through updateGameState. -/
def aiWhiteStep (p : List GameState × GameState) : List GameState × GameState :=
  if p.2.currentTurn = Side.white ∧ p.2.gameOver = false then
    match (minimax 4 p.2.board NEG_INFINITY POS_INFINITY true).move with
    | some mv => updateGameState p (whiteMoveState p.2 mv)
    | none =>
      if (findValidMoves p.2.board Side.black).length = 0 then
        updateGameState p
          { p.2 with gameOver := true, winner := some (determineWinner p.2.board) }
      else
        updateGameState p
          { p.2 with currentTurn := Side.black,
                     validMoves := findValidMoves p.2.board Side.black }
  else p

/-- Embedding of handleUndo: with at least three history entries, drop the
two most recent ones and make the new last entry current; otherwise do
nothing. -/
def handleUndo (p : List GameState × GameState) : List GameState × GameState :=
  if 3 ≤ p.1.length then
    let newHistory := p.1.take (p.1.length - 2)
    (newHistory, newHistory.getLastD p.2)
  else p

/-- The starting 6x6 layout of StrangeOthello.tsx, row by row. -/
def initialBoardRows : List (List CellState) :=
  [[CellState.black, CellState.black, CellState.black, CellState.black, CellState.black, CellState.white],
   [CellState.black, CellState.empty, CellState.empty, CellState.empty, CellState.empty, CellState.white],
   [CellState.black, CellState.empty, CellState.white, CellState.black, CellState.empty, CellState.white],
   [CellState.black, CellState.empty, CellState.black, CellState.white, CellState.empty, CellState.white],
   [CellState.black, CellState.empty, CellState.empty, CellState.empty, CellState.empty, CellState.white],
   [CellState.black, CellState.white, CellState.white, CellState.white, CellState.white, CellState.white]]

/-- The starting board as a function. -/
def initialBoard : Board := fun r c =>
  (initialBoardRows.getD r.val []).getD c.val CellState.empty

/-- The initial game state: black (the human) moves first. -/
def initialGameState : GameState :=
  { board := initialBoard,
    currentTurn := Side.black,
    blackScore := countPieces initialBoard Side.black,
    whiteScore := countPieces initialBoard Side.white,
    gameOver := false,
    winner := none,
    validMoves := findValidMoves initialBoard Side.black }

end StrangeOthello

namespace ModM

/-- Side in the Mod-M card game. -/
inductive MPlayer where
  | player
  | ai
deriving DecidableEq, Repr

/-- The opposite side, the inline ternary of playCard. -/
def MPlayer.other : MPlayer → MPlayer
  | .player => MPlayer.ai
  | .ai => MPlayer.player

/-- Embedding of the GameState interface of ModMGame.tsx.  The two
presentation strings (message and lastMove) carry no game information and
are omitted. -/
structure GameState where
  n : Nat
  m : Nat
  playerCards : List Nat
  aiCards : List Nat
  playedCards : List Nat
  playedBy : List MPlayer
  sum : Nat
  currentTurn : MPlayer
  gameOver : Bool
  winner : Option MPlayer
deriving DecidableEq, Repr

/-- The initial state of ModMGame.tsx: n = 5, m = 9, both sides hold cards
1 to 5, empty table, the AI moves first. -/
def initState : GameState :=
  { n := 5, m := 9,
    playerCards := [1, 2, 3, 4, 5], aiCards := [1, 2, 3, 4, 5],
    playedCards := [], playedBy := [], sum := 0,
    currentTurn := MPlayer.ai, gameOver := false, winner := none }

/-- Embedding of the playCard state construction of ModMGame.tsx: remove the
card from the hand of the mover, append it to the table, add it to the sum;
then, in this order, sudden-death check (sum divisible by m means the mover
loses), exhaustion check (both hands empty means the AI wins), otherwise the
turn passes to the other side. -/
def playCard (card : Nat) (player : MPlayer) (s : GameState) : GameState :=
  let s1 :=
    match player with
    | .player => { s with playerCards := s.playerCards.filter (fun c => c != card) }
    | .ai => { s with aiCards := s.aiCards.filter (fun c => c != card) }
  let s2 := { s1 with playedCards := s1.playedCards ++ [card],
                      playedBy := s1.playedBy ++ [player],
                      sum := s1.sum + card }
  if s2.sum % s2.m = 0 then
    { s2 with gameOver := true, winner := some player.other }
  else if s2.playerCards = [] ∧ s2.aiCards = [] then
    { s2 with gameOver := true, winner := some MPlayer.ai }
  else
    { s2 with currentTurn := player.other }

/-- playCard at the controller level: the current state is pushed on the
history and the new state becomes current. -/
def playCardH (card : Nat) (player : MPlayer) (p : List GameState × GameState) :
    List GameState × GameState :=
  (p.1 ++ [p.2], playCard card player p.2)

/-- Embedding of handleCardSelect: return silently unless it is the player
turn on a live game, then play the chosen card.  The hand is not consulted. -/
def handleCardSelect (card : Nat) (p : List GameState × GameState) :
    List GameState × GameState :=
  if p.2.currentTurn ≠ MPlayer.player ∨ p.2.gameOver = true then p
  else playCardH card MPlayer.player p

/-- Sentinel for Number.NEGATIVE_INFINITY; every reachable score of this
search lies strictly between the two sentinels. -/
def NEG_INFINITY : Int := -1000000

/-- Sentinel for Number.POSITIVE_INFINITY. -/
def POS_INFINITY : Int := 1000000

/-- Return value of the minimax of ModMGame.tsx. -/
structure SearchResult where
  score : Int
  card : Option Nat
deriving DecidableEq, Repr

/-- End of the maximizing loop: if no card was kept (every card was an
immediate loss and was skipped), pick a card from the hand (the source picks
a uniformly random one, modelled as the first) and score -10 + depth. -/
def finalizeMax (aiCards : List Nat) (depth : Nat) (best : Int)
    (bestCard : Option Nat) : SearchResult :=
  match bestCard with
  | some c => { score := best, card := some c }
  | none => { score := -10 + (depth : Int), card := aiCards.head? }

/-- End of the minimizing loop, mirror of finalizeMax with score 10 - depth. -/
def finalizeMin (playerCards : List Nat) (depth : Nat) (best : Int)
    (bestCard : Option Nat) : SearchResult :=
  match bestCard with
  | some c => { score := best, card := some c }
  | none => { score := 10 - (depth : Int), card := playerCards.head? }

/-- The maximizing loop of the minimax of ModMGame.tsx: skip cards whose
play makes the sum divisible by m, recurse on the rest, keep the best score
and card, raise alpha with the running best and stop once beta <= alpha;
the loop ends through finalizeMax in every case. -/
def maxLoop (m : Nat) (aiCards : List Nat) (sum depth : Nat)
    (recur : List Nat → Nat → Int → Int → Option SearchResult) :
    List Nat → Int → Int → Int → Option Nat → Option SearchResult
  | [], _, _, best, bestCard => some (finalizeMax aiCards depth best bestCard)
  | card :: rest, alpha, beta, best, bestCard =>
    let newSum := sum + card
    if newSum % m = 0 then
      maxLoop m aiCards sum depth recur rest alpha beta best bestCard
    else
      match recur (aiCards.filter (fun c => c != card)) newSum alpha beta with
      | none => none
      | some r =>
        let best' := if r.score > best then r.score else best
        let bestCard' := if r.score > best then some card else bestCard
        let alpha' := max alpha best'
        if beta ≤ alpha' then some (finalizeMax aiCards depth best' bestCard')
        else maxLoop m aiCards sum depth recur rest alpha' beta best' bestCard'

/-- The minimizing loop, mirror image of maxLoop over the player hand. -/
def minLoop (m : Nat) (playerCards : List Nat) (sum depth : Nat)
    (recur : List Nat → Nat → Int → Int → Option SearchResult) :
    List Nat → Int → Int → Int → Option Nat → Option SearchResult
  | [], _, _, best, bestCard => some (finalizeMin playerCards depth best bestCard)
  | card :: rest, alpha, beta, best, bestCard =>
    let newSum := sum + card
    if newSum % m = 0 then
      minLoop m playerCards sum depth recur rest alpha beta best bestCard
    else
      match recur (playerCards.filter (fun c => c != card)) newSum alpha beta with
      | none => none
      | some r =>
        let best' := if r.score < best then r.score else best
        let bestCard' := if r.score < best then some card else bestCard
        let beta' := min beta best'
        if beta' ≤ alpha then some (finalizeMin playerCards depth best' bestCard')
        else minLoop m playerCards sum depth recur rest alpha beta' best' bestCard'

/-- Embedding of the minimax of ModMGame.tsx with an explicit fuel bounding
the recursion (the source recursion has no depth cutoff; fuel
2 * (total cards) + 2 always suffices, proved for claim C9).  Base case:
both hands empty scores -1.  A side with no cards passes the turn with the
hands unchanged; m stands for the gameState.m the source closure reads. -/
def minimaxAux :
    Nat → Nat → List Nat → List Nat → Nat → Bool → Nat → Int → Int →
    Option SearchResult
  | 0, _, _, _, _, _, _, _, _ => none
  | fuel + 1, m, playerCards, aiCards, sum, isMaximizing, depth, alpha, beta =>
    if playerCards = [] ∧ aiCards = [] then some { score := -1, card := none }
    else
      let currentCards := if isMaximizing then aiCards else playerCards
      if currentCards = [] then
        minimaxAux fuel m playerCards aiCards sum (!isMaximizing) (depth + 1) alpha beta
      else if isMaximizing then
        maxLoop m aiCards sum depth
          (fun a' s' al bt => minimaxAux fuel m playerCards a' s' false (depth + 1) al bt)
          aiCards alpha beta NEG_INFINITY none
      else
        minLoop m playerCards sum depth
          (fun p' s' al bt => minimaxAux fuel m p' aiCards s' true (depth + 1) al bt)
          playerCards alpha beta POS_INFINITY none

/-- The minimax of the source at sufficient fuel. -/
def minimax (m : Nat) (playerCards aiCards : List Nat) (sum : Nat)
    (isMaximizing : Bool) (depth : Nat) (alpha beta : Int) : Option SearchResult :=
  minimaxAux (2 * (playerCards.length + aiCards.length) + 2) m playerCards aiCards
    sum isMaximizing depth alpha beta

end ModM

namespace ModMLegacy

/-- Embedding of the GameState interface of the earlier revision of the
Mod-M page (source file part_003): no playedBy list, and the presentation
string message is omitted. -/
structure GameState where
  n : Nat
  m : Nat
  playerCards : List Nat
  aiCards : List Nat
  playedCards : List Nat
  sum : Nat
  currentTurn : ModM.MPlayer
  gameOver : Bool
  winner : Option ModM.MPlayer
deriving DecidableEq, Repr

/-- The state builder of the earlier revision (its defaults are n = 5,
m = 7): both sides hold cards 1 to n, empty table, the player moves first. -/
def initGame (n m : Nat) : GameState :=
  { n := n, m := m,
    playerCards := List.range' 1 n, aiCards := List.range' 1 n,
    playedCards := [], sum := 0,
    currentTurn := ModM.MPlayer.player, gameOver := false, winner := none }

/-- Embedding of playCard of the earlier revision: identical to the shipped
one except that exhaustion of both hands makes the player win. -/
def playCard (card : Nat) (player : ModM.MPlayer) (s : GameState) : GameState :=
  let s1 :=
    match player with
    | .player => { s with playerCards := s.playerCards.filter (fun c => c != card) }
    | .ai => { s with aiCards := s.aiCards.filter (fun c => c != card) }
  let s2 := { s1 with playedCards := s1.playedCards ++ [card],
                      sum := s1.sum + card }
  if s2.sum % s2.m = 0 then
    { s2 with gameOver := true, winner := some player.other }
  else if s2.playerCards = [] ∧ s2.aiCards = [] then
    { s2 with gameOver := true, winner := some ModM.MPlayer.player }
  else
    { s2 with currentTurn := player.other }

end ModMLegacy

namespace PieceTaking

/-- The pile of a colour in an explicit heap triple. -/
def pile3 (blue yellow red : Nat) : NimColor → Nat
  | .blue => blue
  | .yellow => yellow
  | .red => red

/-- Remove k pieces from the chosen pile of an explicit heap triple. -/
def remove3 (blue yellow red : Nat) : NimColor → Nat → Nat × Nat × Nat
  | .blue, k => (blue - k, yellow, red)
  | .yellow, k => (blue, yellow - k, red)
  | .red, k => (blue, yellow, red - k)

/-- A fixed oracle for the random fallback of the AI (never reached in the
runs the theorems consider). -/
def rhoBlueOne : GameState → NimColor × Nat := fun _ => (NimColor.blue, 1)

/-- A concrete always-legal strategy: take one piece from the first
non-empty heap. -/
def sigmaFirstOne : Strategy := fun s =>
  if s.bluePieces > 0 then (NimColor.blue, 1)
  else if s.yellowPieces > 0 then (NimColor.yellow, 1)
  else (NimColor.red, 1)

end PieceTaking

namespace StrangeOthello

/-- Occupancy count of a cell list. -/
def countOn (b : Board) (cells : List Pos) (c : CellState) : Nat :=
  cells.countP (fun p => decide (b p.1 p.2 = c))

/-- Occupancy differential (white minus black) of a cell list. -/
def occDiff (b : Board) (cells : List Pos) : Int :=
  (countOn b cells CellState.white : Int) - (countOn b cells CellState.black : Int)

/-- All 20 border cells of the 6x6 board. -/
def borderCells : List Pos :=
  allPositions.filter (fun p =>
    decide (p.1 = (0 : Fin 6) ∨ p.1 = (5 : Fin 6) ∨ p.2 = (0 : Fin 6) ∨ p.2 = (5 : Fin 6)))

/-- The 16 border cells that are not corners. -/
def nonCornerBorderCells : List Pos :=
  borderCells.filter (fun p => decide (p ∉ corners))

/-- The evaluation formula exactly as claim C2 states it: 3 times the piece
differential, 10 times the corner occupancy differential, 2 times the
occupancy differential over the non-corner border cells only, and 2 times
the mobility differential.  Spec-side definition, to be compared with
evaluateBoard. -/
def evaluateSpecC2 (b : Board) : Int :=
  3 * ((countPieces b Side.white : Int) - (countPieces b Side.black : Int)) +
  10 * occDiff b corners +
  2 * occDiff b nonCornerBorderCells +
  2 * (((findValidMoves b Side.white).length : Int) -
    ((findValidMoves b Side.black).length : Int))

/-- The amended evaluation formula: identical to the formula of claim C2
except that the border term ranges over every border cell, corners included,
so each occupied corner contributes 12 (10 from the corner term plus 2 from
the border term). -/
def evaluateSpecAmended (b : Board) : Int :=
  3 * ((countPieces b Side.white : Int) - (countPieces b Side.black : Int)) +
  10 * occDiff b corners +
  2 * occDiff b borderCells +
  2 * (((findValidMoves b Side.white).length : Int) -
    ((findValidMoves b Side.black).length : Int))

/-- Witness board for claim C2: a single white piece on corner (0,0). -/
def c2Board : Board := fun r c =>
  if r = 0 ∧ c = 0 then CellState.white else CellState.empty

/-- Witness board for claim C3: row 0 holds white, black, white on columns
1, 2, 3; white has no legal move while black has two. -/
def c3Board : Board := fun r c =>
  if r = 0 ∧ c = 1 then CellState.white
  else if r = 0 ∧ c = 2 then CellState.black
  else if r = 0 ∧ c = 3 then CellState.white
  else CellState.empty

/-- Witness board for claim C5: cell (0,0) empty, cell (0,1) white, every
other cell black; the only black move fills the board. -/
def c5Board : Board := fun r c =>
  if r = 0 ∧ c = 0 then CellState.empty
  else if r = 0 ∧ c = 1 then CellState.white
  else CellState.black

/-- Live state on c5Board with black to move and fields derived from the
board. -/
def c5State : GameState :=
  { board := c5Board, currentTurn := Side.black,
    blackScore := countPieces c5Board Side.black,
    whiteScore := countPieces c5Board Side.white,
    gameOver := false, winner := none,
    validMoves := findValidMoves c5Board Side.black }

/-- The controller state the page starts from: the initial state is both the
current state and the only history entry. -/
def initialPair : List GameState × GameState :=
  ([initialGameState], initialGameState)

end StrangeOthello

namespace ModM

/-- A live mid-game state for claim C8: the AI opened with card 4, the
player holds every card. -/
def c8State : GameState :=
  { n := 5, m := 9,
    playerCards := [1, 2, 3, 4, 5], aiCards := [1, 2, 3, 5],
    playedCards := [4], playedBy := [MPlayer.ai], sum := 4,
    currentTurn := MPlayer.player, gameOver := false, winner := none }

end ModM

namespace PieceTaking

/-- A pile with the most significant bit of s set strictly shrinks under
xor with s. -/
theorem xor_msb_lt (s x i : Nat) (hx : x.testBit i = true) (hs : s.testBit i = true)
    (hmsb : ∀ j, i < j → s.testBit j = false) : x ^^^ s < x := by
  apply Nat.lt_of_testBit i
  · simp [Nat.testBit_xor, hx, hs]
  · exact hx
  · intro j hj
    simp [Nat.testBit_xor, hmsb j hj]

/-- A pile with the most significant bit of s clear strictly grows under
xor with s. -/
theorem xor_msb_gt (s x i : Nat) (hx : x.testBit i = false) (hs : s.testBit i = true)
    (hmsb : ∀ j, i < j → s.testBit j = false) : x < x ^^^ s := by
  apply Nat.lt_of_testBit i hx
  · simp [Nat.testBit_xor, hx, hs]
  · intro j hj
    simp [Nat.testBit_xor, hmsb j hj]

/-- The nim-sum loop of the AI never falls through when the nim-sum is
non-zero: it returns a colour and a removal of at least one piece, at most
the pile, after which the heap triple has xor 0. -/
theorem nimLoopMove_spec (blue yellow red : Nat)
    (h : blue ^^^ yellow ^^^ red ≠ 0) :
    ∃ c k, nimLoopMove blue yellow red = some (c, k) ∧ 1 ≤ k ∧
      k ≤ pile3 blue yellow red c ∧
      (let t := remove3 blue yellow red c k
       t.1 ^^^ t.2.1 ^^^ t.2.2 = 0) := by
  obtain ⟨i, hbit, hmsb⟩ := Nat.exists_most_significant_bit h
  by_cases hb : blue.testBit i = true
  · have hlt : blue ^^^ (blue ^^^ yellow ^^^ red) < blue :=
      xor_msb_lt _ _ i hb hbit hmsb
    refine ⟨NimColor.blue, blue - (blue ^^^ (blue ^^^ yellow ^^^ red)), ?_, ?_, ?_, ?_⟩
    · simp only [nimLoopMove, if_pos hlt]
    · omega
    · simp only [pile3]; omega
    · simp only [remove3]
      have hsub : blue - (blue - (blue ^^^ (blue ^^^ yellow ^^^ red))) =
          blue ^^^ (blue ^^^ yellow ^^^ red) :=
        Nat.sub_sub_self (Nat.le_of_lt hlt)
      rw [hsub]
      have hre : (blue ^^^ (blue ^^^ yellow ^^^ red)) ^^^ yellow ^^^ red =
          (blue ^^^ yellow ^^^ red) ^^^ (blue ^^^ yellow ^^^ red) := by ac_rfl
      rw [hre, Nat.xor_self]
  · have hgt : blue < blue ^^^ (blue ^^^ yellow ^^^ red) :=
      xor_msb_gt _ _ i (by simpa using hb) hbit hmsb
    have hnb : ¬ blue ^^^ (blue ^^^ yellow ^^^ red) < blue := by omega
    by_cases hy : yellow.testBit i = true
    · have hlt : yellow ^^^ (blue ^^^ yellow ^^^ red) < yellow :=
        xor_msb_lt _ _ i hy hbit hmsb
      refine ⟨NimColor.yellow, yellow - (yellow ^^^ (blue ^^^ yellow ^^^ red)), ?_, ?_, ?_, ?_⟩
      · simp only [nimLoopMove, if_neg hnb, if_pos hlt]
      · omega
      · simp only [pile3]; omega
      · simp only [remove3]
        have hsub : yellow - (yellow - (yellow ^^^ (blue ^^^ yellow ^^^ red))) =
            yellow ^^^ (blue ^^^ yellow ^^^ red) :=
          Nat.sub_sub_self (Nat.le_of_lt hlt)
        rw [hsub]
        have hre : blue ^^^ (yellow ^^^ (blue ^^^ yellow ^^^ red)) ^^^ red =
            (blue ^^^ yellow ^^^ red) ^^^ (blue ^^^ yellow ^^^ red) := by ac_rfl
        rw [hre, Nat.xor_self]
    · have hr : red.testBit i = true := by
        have hb2 : blue.testBit i = false := by simpa using hb
        have hy2 : yellow.testBit i = false := by simpa using hy
        have h3 := hbit
        rw [Nat.testBit_xor, Nat.testBit_xor, hb2, hy2] at h3
        simpa using h3
      have hlt : red ^^^ (blue ^^^ yellow ^^^ red) < red :=
        xor_msb_lt _ _ i hr hbit hmsb
      have hgy : yellow < yellow ^^^ (blue ^^^ yellow ^^^ red) :=
        xor_msb_gt _ _ i (by simpa using hy) hbit hmsb
      have hny : ¬ yellow ^^^ (blue ^^^ yellow ^^^ red) < yellow := by omega
      refine ⟨NimColor.red, red - (red ^^^ (blue ^^^ yellow ^^^ red)), ?_, ?_, ?_, ?_⟩
      · simp only [nimLoopMove, if_neg hnb, if_neg hny, if_pos hlt]
      · omega
      · simp only [pile3]; omega
      · simp only [remove3]
        have hsub : red - (red - (red ^^^ (blue ^^^ yellow ^^^ red))) =
            red ^^^ (blue ^^^ yellow ^^^ red) :=
          Nat.sub_sub_self (Nat.le_of_lt hlt)
        rw [hsub]
        have hre : blue ^^^ yellow ^^^ (red ^^^ (blue ^^^ yellow ^^^ red)) =
            (blue ^^^ yellow ^^^ red) ^^^ (blue ^^^ yellow ^^^ red) := by ac_rfl
        rw [hre, Nat.xor_self]

end PieceTaking

/-- Claim C4: for every heap triple with non-zero xor (and hence at least
one non-empty heap), the AI move-selection loop finds a reduction without
falling through to the random fallback, and the triple after the removal
has xor 0. -/
theorem c4_theorem (blue yellow red : Nat)
    (hx : blue ^^^ yellow ^^^ red ≠ 0) (hpos : 0 < blue + yellow + red) :
    ∃ c k, PieceTaking.nimLoopMove blue yellow red = some (c, k) ∧ 1 ≤ k ∧
      k ≤ PieceTaking.pile3 blue yellow red c ∧
      (let t := PieceTaking.remove3 blue yellow red c k
       t.1 ^^^ t.2.1 ^^^ t.2.2 = 0) :=
  PieceTaking.nimLoopMove_spec blue yellow red hx

/-- Witness for claim C4 at the initial heaps (7, 6, 2). -/
theorem c4_witness :
    (7 ^^^ 6 ^^^ 2 ≠ 0) ∧ (0 < 7 + 6 + 2) ∧
    (∃ c k, PieceTaking.nimLoopMove 7 6 2 = some (c, k) ∧ 1 ≤ k ∧
      k ≤ PieceTaking.pile3 7 6 2 c ∧
      (let t := PieceTaking.remove3 7 6 2 c k
       t.1 ^^^ t.2.1 ^^^ t.2.2 = 0)) :=
  ⟨by decide, by decide, c4_theorem 7 6 2 (by decide) (by decide)⟩

namespace PieceTaking

theorem reselect_fields (s : GameState) :
    (reselectAvailable s).bluePieces = s.bluePieces ∧
    (reselectAvailable s).yellowPieces = s.yellowPieces ∧
    (reselectAvailable s).redPieces = s.redPieces ∧
    (reselectAvailable s).currentTurn = s.currentTurn ∧
    (reselectAvailable s).gameOver = s.gameOver ∧
    (reselectAvailable s).winner = s.winner := by
  rw [reselectAvailable]
  split <;> simp

theorem aiStep_eq_of_loop (rho : GameState → NimColor × Nat) (s : GameState)
    (c : NimColor) (k : Nat)
    (hturn : s.currentTurn = NimTurn.ai) (hover : s.gameOver = false)
    (hx : s.bluePieces ^^^ s.yellowPieces ^^^ s.redPieces ≠ 0)
    (hsome : nimLoopMove s.bluePieces s.yellowPieces s.redPieces = some (c, k)) :
    aiStep rho s =
      (let sMoved := aiApplyMove s c k
       let sEnd :=
         if sMoved.bluePieces + sMoved.yellowPieces + sMoved.redPieces = 0 then
           { sMoved with gameOver := true, winner := some NimTurn.player }
         else reselectAvailable sMoved
       { sEnd with currentTurn := NimTurn.player }) := by
  rw [aiStep, if_pos (And.intro hturn hover)]
  simp only [if_pos hx, hsome]

end PieceTaking

namespace PieceTaking

theorem aiStep_eq_blue (rho : GameState → NimColor × Nat) (s : GameState) (k : Nat)
    (hturn : s.currentTurn = NimTurn.ai) (hover : s.gameOver = false)
    (hx : s.bluePieces ^^^ s.yellowPieces ^^^ s.redPieces ≠ 0)
    (hsome : nimLoopMove s.bluePieces s.yellowPieces s.redPieces = some (NimColor.blue, k)) :
    aiStep rho s =
      { (if s.bluePieces - k + s.yellowPieces + s.redPieces = 0 then
          ({ ({ s with bluePieces := s.bluePieces - k, selectedColor := NimColor.blue, lastAIMove := some (NimColor.blue, k) } : GameState) with gameOver := true, winner := some NimTurn.player } : GameState)
        else
          reselectAvailable ({ s with bluePieces := s.bluePieces - k, selectedColor := NimColor.blue, lastAIMove := some (NimColor.blue, k) } : GameState)) with
        currentTurn := NimTurn.player } := by
  rw [aiStep_eq_of_loop rho s NimColor.blue k hturn hover hx hsome]
  rfl

theorem aiStep_eq_yellow (rho : GameState → NimColor × Nat) (s : GameState) (k : Nat)
    (hturn : s.currentTurn = NimTurn.ai) (hover : s.gameOver = false)
    (hx : s.bluePieces ^^^ s.yellowPieces ^^^ s.redPieces ≠ 0)
    (hsome : nimLoopMove s.bluePieces s.yellowPieces s.redPieces = some (NimColor.yellow, k)) :
    aiStep rho s =
      { (if s.bluePieces + (s.yellowPieces - k) + s.redPieces = 0 then
          ({ ({ s with yellowPieces := s.yellowPieces - k, selectedColor := NimColor.yellow, lastAIMove := some (NimColor.yellow, k) } : GameState) with gameOver := true, winner := some NimTurn.player } : GameState)
        else
          reselectAvailable ({ s with yellowPieces := s.yellowPieces - k, selectedColor := NimColor.yellow, lastAIMove := some (NimColor.yellow, k) } : GameState)) with
        currentTurn := NimTurn.player } := by
  rw [aiStep_eq_of_loop rho s NimColor.yellow k hturn hover hx hsome]
  rfl

theorem aiStep_eq_red (rho : GameState → NimColor × Nat) (s : GameState) (k : Nat)
    (hturn : s.currentTurn = NimTurn.ai) (hover : s.gameOver = false)
    (hx : s.bluePieces ^^^ s.yellowPieces ^^^ s.redPieces ≠ 0)
    (hsome : nimLoopMove s.bluePieces s.yellowPieces s.redPieces = some (NimColor.red, k)) :
    aiStep rho s =
      { (if s.bluePieces + s.yellowPieces + (s.redPieces - k) = 0 then
          ({ ({ s with redPieces := s.redPieces - k, selectedColor := NimColor.red, lastAIMove := some (NimColor.red, k) } : GameState) with gameOver := true, winner := some NimTurn.player } : GameState)
        else
          reselectAvailable ({ s with redPieces := s.redPieces - k, selectedColor := NimColor.red, lastAIMove := some (NimColor.red, k) } : GameState)) with
        currentTurn := NimTurn.player } := by
  rw [aiStep_eq_of_loop rho s NimColor.red k hturn hover hx hsome]
  rfl

theorem aiStep_spec (rho : GameState → NimColor × Nat) (s : GameState)
    (hturn : s.currentTurn = NimTurn.ai) (hover : s.gameOver = false)
    (hx : nimXor s ≠ 0) :
    nimXor (aiStep rho s) = 0 ∧ total (aiStep rho s) < total s ∧
    (aiStep rho s).currentTurn = NimTurn.player ∧
    (total (aiStep rho s) = 0 →
      (aiStep rho s).gameOver = true ∧
      (aiStep rho s).winner = some NimTurn.player) ∧
    (total (aiStep rho s) ≠ 0 → (aiStep rho s).gameOver = false) := by
  have hx2 : s.bluePieces ^^^ s.yellowPieces ^^^ s.redPieces ≠ 0 := hx
  obtain ⟨c, k, hsome, hk1, hkle, hxor0⟩ :=
    nimLoopMove_spec s.bluePieces s.yellowPieces s.redPieces hx2
  cases c with
  | blue =>
    simp only [remove3] at hxor0
    simp only [pile3] at hkle
    rw [aiStep_eq_blue rho s k hturn hover hx2 hsome]
    set t : GameState := ({ s with bluePieces := s.bluePieces - k, selectedColor := NimColor.blue, lastAIMove := some (NimColor.blue, k) } : GameState) with hts
    by_cases hz : s.bluePieces - k + s.yellowPieces + s.redPieces = 0
    · rw [if_pos hz]
      refine ⟨hxor0, ?_, rfl, fun _ => ⟨rfl, rfl⟩, fun hne => absurd hz hne⟩
      show s.bluePieces - k + s.yellowPieces + s.redPieces < total s
      simp only [total]
      omega
    · rw [if_neg hz]
      obtain ⟨e1, e2, e3, e4, e5, e6⟩ := reselect_fields t
      refine ⟨?_, ?_, rfl, ?_, ?_⟩
      · show (reselectAvailable t).bluePieces ^^^ (reselectAvailable t).yellowPieces ^^^
          (reselectAvailable t).redPieces = 0
        rw [e1, e2, e3]
        exact hxor0
      · show (reselectAvailable t).bluePieces + (reselectAvailable t).yellowPieces +
          (reselectAvailable t).redPieces < total s
        rw [e1, e2, e3]
        simp only [hts, total]
        omega
      · intro h0
        exfalso
        apply hz
        have h1 : (reselectAvailable t).bluePieces + (reselectAvailable t).yellowPieces +
            (reselectAvailable t).redPieces = 0 := h0
        rw [e1, e2, e3] at h1
        simp only [hts] at h1
        exact h1
      · intro h0
        show (reselectAvailable t).gameOver = false
        rw [e5]
        exact hover
  | yellow =>
    simp only [remove3] at hxor0
    simp only [pile3] at hkle
    rw [aiStep_eq_yellow rho s k hturn hover hx2 hsome]
    set t : GameState := ({ s with yellowPieces := s.yellowPieces - k, selectedColor := NimColor.yellow, lastAIMove := some (NimColor.yellow, k) } : GameState) with hts
    by_cases hz : s.bluePieces + (s.yellowPieces - k) + s.redPieces = 0
    · rw [if_pos hz]
      refine ⟨hxor0, ?_, rfl, fun _ => ⟨rfl, rfl⟩, fun hne => absurd hz hne⟩
      show s.bluePieces + (s.yellowPieces - k) + s.redPieces < total s
      simp only [total]
      omega
    · rw [if_neg hz]
      obtain ⟨e1, e2, e3, e4, e5, e6⟩ := reselect_fields t
      refine ⟨?_, ?_, rfl, ?_, ?_⟩
      · show (reselectAvailable t).bluePieces ^^^ (reselectAvailable t).yellowPieces ^^^
          (reselectAvailable t).redPieces = 0
        rw [e1, e2, e3]
        exact hxor0
      · show (reselectAvailable t).bluePieces + (reselectAvailable t).yellowPieces +
          (reselectAvailable t).redPieces < total s
        rw [e1, e2, e3]
        simp only [hts, total]
        omega
      · intro h0
        exfalso
        apply hz
        have h1 : (reselectAvailable t).bluePieces + (reselectAvailable t).yellowPieces +
            (reselectAvailable t).redPieces = 0 := h0
        rw [e1, e2, e3] at h1
        simp only [hts] at h1
        exact h1
      · intro h0
        show (reselectAvailable t).gameOver = false
        rw [e5]
        exact hover
  | red =>
    simp only [remove3] at hxor0
    simp only [pile3] at hkle
    rw [aiStep_eq_red rho s k hturn hover hx2 hsome]
    set t : GameState := ({ s with redPieces := s.redPieces - k, selectedColor := NimColor.red, lastAIMove := some (NimColor.red, k) } : GameState) with hts
    by_cases hz : s.bluePieces + s.yellowPieces + (s.redPieces - k) = 0
    · rw [if_pos hz]
      refine ⟨hxor0, ?_, rfl, fun _ => ⟨rfl, rfl⟩, fun hne => absurd hz hne⟩
      show s.bluePieces + s.yellowPieces + (s.redPieces - k) < total s
      simp only [total]
      omega
    · rw [if_neg hz]
      obtain ⟨e1, e2, e3, e4, e5, e6⟩ := reselect_fields t
      refine ⟨?_, ?_, rfl, ?_, ?_⟩
      · show (reselectAvailable t).bluePieces ^^^ (reselectAvailable t).yellowPieces ^^^
          (reselectAvailable t).redPieces = 0
        rw [e1, e2, e3]
        exact hxor0
      · show (reselectAvailable t).bluePieces + (reselectAvailable t).yellowPieces +
          (reselectAvailable t).redPieces < total s
        rw [e1, e2, e3]
        simp only [hts, total]
        omega
      · intro h0
        exfalso
        apply hz
        have h1 : (reselectAvailable t).bluePieces + (reselectAvailable t).yellowPieces +
            (reselectAvailable t).redPieces = 0 := h0
        rw [e1, e2, e3] at h1
        simp only [hts] at h1
        exact h1
      · intro h0
        show (reselectAvailable t).gameOver = false
        rw [e5]
        exact hover

theorem confirm_eq_blue (s : GameState) (hc : s.selectedColor = NimColor.blue) :
    confirmPlayerMove s =
      (if s.bluePieces - s.selectedCount + s.yellowPieces + s.redPieces = 0 then
        ({ s with bluePieces := s.bluePieces - s.selectedCount, currentTurn := NimTurn.ai, gameOver := true, winner := some NimTurn.ai } : GameState)
      else
        { reselectAvailable ({ s with bluePieces := s.bluePieces - s.selectedCount, currentTurn := NimTurn.ai } : GameState) with lastAIMove := none }) := by
  rw [confirmPlayerMove, hc]

theorem confirm_eq_yellow (s : GameState) (hc : s.selectedColor = NimColor.yellow) :
    confirmPlayerMove s =
      (if s.bluePieces + (s.yellowPieces - s.selectedCount) + s.redPieces = 0 then
        ({ s with yellowPieces := s.yellowPieces - s.selectedCount, currentTurn := NimTurn.ai, gameOver := true, winner := some NimTurn.ai } : GameState)
      else
        { reselectAvailable ({ s with yellowPieces := s.yellowPieces - s.selectedCount, currentTurn := NimTurn.ai } : GameState) with lastAIMove := none }) := by
  rw [confirmPlayerMove, hc]

theorem confirm_eq_red (s : GameState) (hc : s.selectedColor = NimColor.red) :
    confirmPlayerMove s =
      (if s.bluePieces + s.yellowPieces + (s.redPieces - s.selectedCount) = 0 then
        ({ s with redPieces := s.redPieces - s.selectedCount, currentTurn := NimTurn.ai, gameOver := true, winner := some NimTurn.ai } : GameState)
      else
        { reselectAvailable ({ s with redPieces := s.redPieces - s.selectedCount, currentTurn := NimTurn.ai } : GameState) with lastAIMove := none }) := by
  rw [confirmPlayerMove, hc]

theorem confirmPlayerMove_spec (s : GameState) (hover : s.gameOver = false)
    (hk1 : 1 ≤ s.selectedCount) (hkle : s.selectedCount ≤ piecesOf s s.selectedColor)
    (hx : nimXor s = 0) (hpos : 0 < total s) :
    (confirmPlayerMove s).currentTurn = NimTurn.ai ∧
    (confirmPlayerMove s).gameOver = false ∧
    nimXor (confirmPlayerMove s) ≠ 0 ∧
    total (confirmPlayerMove s) < total s := by
  have hx2 : s.bluePieces ^^^ s.yellowPieces ^^^ s.redPieces = 0 := hx
  have hpos2 : 0 < s.bluePieces + s.yellowPieces + s.redPieces := hpos
  cases hc : s.selectedColor with
  | blue =>
    rw [hc] at hkle
    simp only [piecesOf] at hkle
    have hswap : s.bluePieces ^^^ s.yellowPieces ^^^ s.redPieces = s.bluePieces ^^^ (s.yellowPieces ^^^ s.redPieces) := by
      ac_rfl
    have hO : s.bluePieces = (s.yellowPieces ^^^ s.redPieces) := Nat.xor_eq_zero.mp (hswap ▸ hx2)
    rw [confirm_eq_blue s hc]
    set t : GameState := ({ s with bluePieces := s.bluePieces - s.selectedCount, currentTurn := NimTurn.ai } : GameState) with hts
    by_cases hz : s.bluePieces - s.selectedCount + s.yellowPieces + s.redPieces = 0
    · exfalso
      have hO2 : (s.yellowPieces ^^^ s.redPieces) = 0 := by
        have hy : s.yellowPieces = 0 := by omega
        have hr : s.redPieces = 0 := by omega
        simp [hy, hr]
      rw [hO2] at hO
      omega
    · rw [if_neg hz]
      obtain ⟨e1, e2, e3, e4, e5, e6⟩ := reselect_fields t
      refine ⟨?_, ?_, ?_, ?_⟩
      · show (reselectAvailable t).currentTurn = NimTurn.ai
        rw [e4]
      · show (reselectAvailable t).gameOver = false
        rw [e5]
        exact hover
      · show (reselectAvailable t).bluePieces ^^^ (reselectAvailable t).yellowPieces ^^^
          (reselectAvailable t).redPieces ≠ 0
        rw [e1, e2, e3]
        intro h1
        have h2 : (s.bluePieces - s.selectedCount) ^^^ s.yellowPieces ^^^ s.redPieces = 0 := h1
        have hswap2 : (s.bluePieces - s.selectedCount) ^^^ s.yellowPieces ^^^ s.redPieces = (s.bluePieces - s.selectedCount) ^^^ (s.yellowPieces ^^^ s.redPieces) := by ac_rfl
        rw [hswap2] at h2
        have h3 : s.bluePieces - s.selectedCount = (s.yellowPieces ^^^ s.redPieces) := Nat.xor_eq_zero.mp h2
        rw [← hO] at h3
        omega
      · show (reselectAvailable t).bluePieces + (reselectAvailable t).yellowPieces +
          (reselectAvailable t).redPieces < total s
        rw [e1, e2, e3]
        simp only [hts, total]
        omega
  | yellow =>
    rw [hc] at hkle
    simp only [piecesOf] at hkle
    have hswap : s.bluePieces ^^^ s.yellowPieces ^^^ s.redPieces = s.yellowPieces ^^^ (s.bluePieces ^^^ s.redPieces) := by
      ac_rfl
    have hO : s.yellowPieces = (s.bluePieces ^^^ s.redPieces) := Nat.xor_eq_zero.mp (hswap ▸ hx2)
    rw [confirm_eq_yellow s hc]
    set t : GameState := ({ s with yellowPieces := s.yellowPieces - s.selectedCount, currentTurn := NimTurn.ai } : GameState) with hts
    by_cases hz : s.bluePieces + (s.yellowPieces - s.selectedCount) + s.redPieces = 0
    · exfalso
      have hO2 : (s.bluePieces ^^^ s.redPieces) = 0 := by
        have hy : s.bluePieces = 0 := by omega
        have hr : s.redPieces = 0 := by omega
        simp [hy, hr]
      rw [hO2] at hO
      omega
    · rw [if_neg hz]
      obtain ⟨e1, e2, e3, e4, e5, e6⟩ := reselect_fields t
      refine ⟨?_, ?_, ?_, ?_⟩
      · show (reselectAvailable t).currentTurn = NimTurn.ai
        rw [e4]
      · show (reselectAvailable t).gameOver = false
        rw [e5]
        exact hover
      · show (reselectAvailable t).bluePieces ^^^ (reselectAvailable t).yellowPieces ^^^
          (reselectAvailable t).redPieces ≠ 0
        rw [e1, e2, e3]
        intro h1
        have h2 : s.bluePieces ^^^ (s.yellowPieces - s.selectedCount) ^^^ s.redPieces = 0 := h1
        have hswap2 : s.bluePieces ^^^ (s.yellowPieces - s.selectedCount) ^^^ s.redPieces = (s.yellowPieces - s.selectedCount) ^^^ (s.bluePieces ^^^ s.redPieces) := by ac_rfl
        rw [hswap2] at h2
        have h3 : s.yellowPieces - s.selectedCount = (s.bluePieces ^^^ s.redPieces) := Nat.xor_eq_zero.mp h2
        rw [← hO] at h3
        omega
      · show (reselectAvailable t).bluePieces + (reselectAvailable t).yellowPieces +
          (reselectAvailable t).redPieces < total s
        rw [e1, e2, e3]
        simp only [hts, total]
        omega
  | red =>
    rw [hc] at hkle
    simp only [piecesOf] at hkle
    have hswap : s.bluePieces ^^^ s.yellowPieces ^^^ s.redPieces = s.redPieces ^^^ (s.bluePieces ^^^ s.yellowPieces) := by
      ac_rfl
    have hO : s.redPieces = (s.bluePieces ^^^ s.yellowPieces) := Nat.xor_eq_zero.mp (hswap ▸ hx2)
    rw [confirm_eq_red s hc]
    set t : GameState := ({ s with redPieces := s.redPieces - s.selectedCount, currentTurn := NimTurn.ai } : GameState) with hts
    by_cases hz : s.bluePieces + s.yellowPieces + (s.redPieces - s.selectedCount) = 0
    · exfalso
      have hO2 : (s.bluePieces ^^^ s.yellowPieces) = 0 := by
        have hy : s.bluePieces = 0 := by omega
        have hr : s.yellowPieces = 0 := by omega
        simp [hy, hr]
      rw [hO2] at hO
      omega
    · rw [if_neg hz]
      obtain ⟨e1, e2, e3, e4, e5, e6⟩ := reselect_fields t
      refine ⟨?_, ?_, ?_, ?_⟩
      · show (reselectAvailable t).currentTurn = NimTurn.ai
        rw [e4]
      · show (reselectAvailable t).gameOver = false
        rw [e5]
        exact hover
      · show (reselectAvailable t).bluePieces ^^^ (reselectAvailable t).yellowPieces ^^^
          (reselectAvailable t).redPieces ≠ 0
        rw [e1, e2, e3]
        intro h1
        have h2 : s.bluePieces ^^^ s.yellowPieces ^^^ (s.redPieces - s.selectedCount) = 0 := h1
        have hswap2 : s.bluePieces ^^^ s.yellowPieces ^^^ (s.redPieces - s.selectedCount) = (s.redPieces - s.selectedCount) ^^^ (s.bluePieces ^^^ s.yellowPieces) := by ac_rfl
        rw [hswap2] at h2
        have h3 : s.redPieces - s.selectedCount = (s.bluePieces ^^^ s.yellowPieces) := Nat.xor_eq_zero.mp h2
        rw [← hO] at h3
        omega
      · show (reselectAvailable t).bluePieces + (reselectAvailable t).yellowPieces +
          (reselectAvailable t).redPieces < total s
        rw [e1, e2, e3]
        simp only [hts, total]
        omega

theorem piecesOf_select (s : GameState) (c c2 : NimColor) (k : Nat) :
    piecesOf ({ s with selectedColor := c2, selectedCount := k } : GameState) c = piecesOf s c := by
  cases c <;> rfl

theorem playerMove_spec (sigma : Strategy) (hval : ValidStrategy sigma) (s : GameState)
    (hover : s.gameOver = false) (hx : nimXor s = 0) (hpos : 0 < total s) :
    (playerMove sigma s).currentTurn = NimTurn.ai ∧
    (playerMove sigma s).gameOver = false ∧
    nimXor (playerMove sigma s) ≠ 0 ∧
    total (playerMove sigma s) < total s := by
  obtain ⟨h1, h2⟩ := hval s hpos
  have h2b : (sigma s).2 ≤
      piecesOf ({ s with selectedColor := (sigma s).1, selectedCount := (sigma s).2 } : GameState)
        ({ s with selectedColor := (sigma s).1, selectedCount := (sigma s).2 } : GameState).selectedColor := by
    rw [piecesOf_select]
    exact h2
  exact confirmPlayerMove_spec
    ({ s with selectedColor := (sigma s).1, selectedCount := (sigma s).2 } : GameState)
    hover h1 h2b hx hpos

theorem nimRun_gameOver (rho : GameState → NimColor × Nat) (sigma : Strategy)
    (fuel : Nat) (s : GameState) (h : s.gameOver = true) :
    nimRun rho sigma fuel s = s := by
  cases fuel with
  | zero => rfl
  | succ f =>
    rw [nimRun, if_pos h]

theorem nimRun_ai_empties (rho : GameState → NimColor × Nat) (sigma : Strategy)
    (hval : ValidStrategy sigma) :
    ∀ n s fuel, total s ≤ n → 2 * total s ≤ fuel →
      s.currentTurn = NimTurn.ai → s.gameOver = false → nimXor s ≠ 0 →
      (nimRun rho sigma fuel s).gameOver = true ∧
      (nimRun rho sigma fuel s).winner = some NimTurn.player := by
  intro n
  induction n with
  | zero =>
    intro s fuel htot _ _ _ hx
    exfalso
    apply hx
    have htot2 : s.bluePieces + s.yellowPieces + s.redPieces ≤ 0 := htot
    have hb : s.bluePieces = 0 := by omega
    have hy : s.yellowPieces = 0 := by omega
    have hr : s.redPieces = 0 := by omega
    simp [nimXor, hb, hy, hr]
  | succ n IH =>
    intro s fuel htot hfuel hturn hover hx
    have hpos : 0 < total s := by
      rcases Nat.eq_zero_or_pos (total s) with h0 | h0
      · exfalso
        apply hx
        have htot2 : s.bluePieces + s.yellowPieces + s.redPieces = 0 := h0
        have hb : s.bluePieces = 0 := by omega
        have hy : s.yellowPieces = 0 := by omega
        have hr : s.redPieces = 0 := by omega
        simp [nimXor, hb, hy, hr]
      · exact h0
    obtain ⟨f, rfl⟩ : ∃ f, fuel = f + 1 := ⟨fuel - 1, by omega⟩
    obtain ⟨ha_x, ha_lt, ha_turn, ha_zero, ha_nz⟩ := aiStep_spec rho s hturn hover hx
    have hrun : nimRun rho sigma (f + 1) s = nimRun rho sigma f (aiStep rho s) := by
      rw [nimRun, if_neg (by simp [hover]), if_pos hturn]
    rw [hrun]
    by_cases h0 : total (aiStep rho s) = 0
    · obtain ⟨hg, hw⟩ := ha_zero h0
      rw [nimRun_gameOver rho sigma f _ hg]
      exact ⟨hg, hw⟩
    · have hover1 := ha_nz h0
      have hpos1 : 0 < total (aiStep rho s) := Nat.pos_of_ne_zero h0
      obtain ⟨g, rfl⟩ : ∃ g, f = g + 1 := ⟨f - 1, by omega⟩
      obtain ⟨hb_turn, hb_over, hb_x, hb_lt⟩ :=
        playerMove_spec sigma hval (aiStep rho s) hover1 ha_x hpos1
      have hrun2 : nimRun rho sigma (g + 1) (aiStep rho s) =
          nimRun rho sigma g (playerMove sigma (aiStep rho s)) := by
        rw [nimRun, if_neg (by simp [hover1]), if_neg (by simp [ha_turn])]
      rw [hrun2]
      exact IH (playerMove sigma (aiStep rho s)) g (by omega) (by omega) hb_turn hb_over hb_x

end PieceTaking

/-- Claim C1 (counterexample): a reachable line of play on which the
computer, to move with non-zero heap xor at each of its turns, follows the
engine and loses.  From the initial heaps (7,6,2) the human takes 6 blue
(heaps (1,6,2), xor 5), the engine answers 3 yellow (heaps (1,3,2)); the
human takes 3 yellow (heaps (1,0,2), xor 3), the engine answers 1 red
(heaps (1,0,1)); the human takes 1 blue (heaps (0,0,1), xor 1), and the
engine is forced to take the last piece: the game ends with the human
declared winner, refuting the claim that the computer wins every such
position. -/
theorem c1_counterexample :
    (let s0 := PieceTaking.initState
     let c1 := PieceTaking.confirmPlayerMove
       { s0 with selectedColor := PieceTaking.NimColor.blue, selectedCount := 6 }
     let a1 := PieceTaking.aiStep PieceTaking.rhoBlueOne c1
     let c2 := PieceTaking.confirmPlayerMove
       { a1 with selectedColor := PieceTaking.NimColor.yellow, selectedCount := 3 }
     let a2 := PieceTaking.aiStep PieceTaking.rhoBlueOne c2
     let c3 := PieceTaking.confirmPlayerMove
       { a2 with selectedColor := PieceTaking.NimColor.blue, selectedCount := 1 }
     let a3 := PieceTaking.aiStep PieceTaking.rhoBlueOne c3
     s0.currentTurn = PieceTaking.NimTurn.player ∧
     6 ≤ s0.bluePieces ∧
     c1.currentTurn = PieceTaking.NimTurn.ai ∧ c1.gameOver = false ∧
     PieceTaking.nimXor c1 ≠ 0 ∧
     a1.currentTurn = PieceTaking.NimTurn.player ∧ a1.gameOver = false ∧
     3 ≤ a1.yellowPieces ∧
     c2.currentTurn = PieceTaking.NimTurn.ai ∧ c2.gameOver = false ∧
     PieceTaking.nimXor c2 ≠ 0 ∧
     a2.currentTurn = PieceTaking.NimTurn.player ∧ a2.gameOver = false ∧
     1 ≤ a2.bluePieces ∧
     c3.currentTurn = PieceTaking.NimTurn.ai ∧ c3.gameOver = false ∧
     PieceTaking.nimXor c3 ≠ 0 ∧
     a3.gameOver = true ∧ a3.winner = some PieceTaking.NimTurn.player) := by
  decide

/-- Claim C1 (amended): from every state where it is the computer's turn,
the game is live and the heap xor is non-zero, the engine's play makes the
computer the side that empties the board against every always-legal human
strategy and every realisation of the random fallback; under the misere
scoring of the page the human player is therefore declared the winner (the
engine plays normal-play Nim in a misere game and so loses these positions,
not wins them). -/
theorem c1_amended_theorem (rho : PieceTaking.GameState → PieceTaking.NimColor × Nat)
    (sigma : PieceTaking.Strategy) (s : PieceTaking.GameState)
    (hval : PieceTaking.ValidStrategy sigma)
    (hturn : s.currentTurn = PieceTaking.NimTurn.ai)
    (hover : s.gameOver = false) (hx : PieceTaking.nimXor s ≠ 0) :
    (PieceTaking.nimRun rho sigma (2 * PieceTaking.total s) s).gameOver = true ∧
    (PieceTaking.nimRun rho sigma (2 * PieceTaking.total s) s).winner =
      some PieceTaking.NimTurn.player :=
  PieceTaking.nimRun_ai_empties rho sigma hval (PieceTaking.total s) s
    (2 * PieceTaking.total s) le_rfl le_rfl hturn hover hx

/-- Witness for the amended claim C1: the take-one-from-the-first-heap
strategy is always legal, and from heaps (7,6,2) with the computer to move
the run ends with the human declared winner. -/
theorem c1_amended_witness :
    PieceTaking.ValidStrategy PieceTaking.sigmaFirstOne ∧
    (let s := { PieceTaking.initState with currentTurn := PieceTaking.NimTurn.ai }
     (PieceTaking.nimRun PieceTaking.rhoBlueOne PieceTaking.sigmaFirstOne
        (2 * PieceTaking.total s) s).gameOver = true ∧
     (PieceTaking.nimRun PieceTaking.rhoBlueOne PieceTaking.sigmaFirstOne
        (2 * PieceTaking.total s) s).winner = some PieceTaking.NimTurn.player) := by
  have hvalid : PieceTaking.ValidStrategy PieceTaking.sigmaFirstOne := by
    intro s hpos
    have hpos2 : 0 < s.bluePieces + s.yellowPieces + s.redPieces := hpos
    rw [PieceTaking.sigmaFirstOne]
    split
    · rename_i h
      exact ⟨le_rfl, by simpa [PieceTaking.piecesOf] using h⟩
    · split
      · rename_i h
        exact ⟨le_rfl, by simpa [PieceTaking.piecesOf] using h⟩
      · rename_i h1 h2
        refine ⟨le_rfl, ?_⟩
        simp only [PieceTaking.piecesOf]
        omega
  refine ⟨hvalid, ?_⟩
  exact c1_amended_theorem PieceTaking.rhoBlueOne PieceTaking.sigmaFirstOne
    { PieceTaking.initState with currentTurn := PieceTaking.NimTurn.ai }
    hvalid rfl rfl (by decide)

namespace StrangeOthello

/-- The weighted cell loop of evaluateBoard sums to the weight times the
occupancy differential of the cell list. -/
theorem cellScore_sum (b : Board) (w : Int) (l : List Pos) :
    (l.map (cellScore b w)).sum = w * occDiff b l := by
  induction l with
  | nil => simp [occDiff, countOn]
  | cons p t ih =>
    rcases hbp : b p.1 p.2 with _ | _ | _ <;>
      simp [cellScore, occDiff, countOn, List.countP_cons, hbp, ih] <;>
      push_cast <;> ring

/-- The edge list of the source enumerates exactly the border cells. -/
theorem edges_perm_border : edges.Perm borderCells := by decide

/-- Occupancy differentials agree on the two enumerations of the border. -/
theorem occDiff_edges_border (b : Board) : occDiff b edges = occDiff b borderCells := by
  simp [occDiff, countOn, edges_perm_border.countP_eq]

end StrangeOthello

/-- Claim C2 (counterexample): on the board with a single white piece on
corner (0,0) the source evaluation yields 15 while the formula of the claim
(whose border term excludes the corners) yields 13: the corner cell is
counted by both the corner term and the edge term of the source. -/
theorem c2_counterexample :
    StrangeOthello.evaluateBoard StrangeOthello.c2Board = 15 ∧
    StrangeOthello.evaluateSpecC2 StrangeOthello.c2Board = 13 ∧
    StrangeOthello.evaluateBoard StrangeOthello.c2Board ≠
      StrangeOthello.evaluateSpecC2 StrangeOthello.c2Board := by
  decide

/-- Claim C2 (amended): for every board the static evaluation equals
3 times the piece differential plus 10 times the corner occupancy
differential plus 2 times the occupancy differential over all border cells
(corners included, so an occupied corner contributes 12 across the two
terms) plus 2 times the legal-move-count differential. -/
theorem c2_amended_theorem (b : StrangeOthello.Board) :
    StrangeOthello.evaluateBoard b = StrangeOthello.evaluateSpecAmended b := by
  rw [StrangeOthello.evaluateBoard, StrangeOthello.evaluateSpecAmended]
  rw [StrangeOthello.cellScore_sum, StrangeOthello.cellScore_sum,
    StrangeOthello.occDiff_edges_border]
  ring

/-- Claim C3 (counterexample): at depth 1 on a board where white (the side
to move, maximizing) has no legal move while black has two, the source
minimax returns the static evaluation with no move, treating the node as a
leaf, whereas the spec-side search that passes the turn returns a different
score. -/
theorem c3_counterexample :
    StrangeOthello.findValidMoves StrangeOthello.c3Board StrangeOthello.Side.white = [] ∧
    StrangeOthello.findValidMoves StrangeOthello.c3Board StrangeOthello.Side.black ≠ [] ∧
    StrangeOthello.minimax 1 StrangeOthello.c3Board StrangeOthello.NEG_INFINITY
      StrangeOthello.POS_INFINITY true =
      { score := StrangeOthello.evaluateBoard StrangeOthello.c3Board, move := none } ∧
    (StrangeOthello.minimaxSpecPassAux 4 1 StrangeOthello.c3Board
        StrangeOthello.NEG_INFINITY StrangeOthello.POS_INFINITY true).map
        StrangeOthello.SearchResult.score ≠
      some (StrangeOthello.evaluateBoard StrangeOthello.c3Board) := by
  decide

/-- Claim C3 (amended): at every node of non-zero remaining depth where the
side to move has zero legal moves the search does not pass the turn: it
returns the static evaluation of the board with no move, exactly as at
depth 0, regardless of whether the other side could move. -/
theorem c3_amended_theorem (depth : Nat) (board : StrangeOthello.Board)
    (alpha beta : Int) (maximizingPlayer : Bool) (hd : depth ≠ 0)
    (hmoves : StrangeOthello.findValidMoves board
      (if maximizingPlayer then StrangeOthello.Side.white else StrangeOthello.Side.black) = []) :
    StrangeOthello.minimax depth board alpha beta maximizingPlayer =
      { score := StrangeOthello.evaluateBoard board, move := none } := by
  rw [StrangeOthello.minimax, StrangeOthello.minimaxAux]
  simp [hmoves]

/-- Witness for the amended claim C3 at depth 1 on the board of the
counterexample. -/
theorem c3_amended_witness :
    ((1 : Nat) ≠ 0) ∧
    StrangeOthello.findValidMoves StrangeOthello.c3Board
      (if true then StrangeOthello.Side.white else StrangeOthello.Side.black) = [] ∧
    StrangeOthello.minimax 1 StrangeOthello.c3Board (-5) 5 true =
      { score := StrangeOthello.evaluateBoard StrangeOthello.c3Board, move := none } :=
  ⟨by decide, by decide,
    c3_amended_theorem 1 StrangeOthello.c3Board (-5) 5 true (by decide) (by decide)⟩

/-- Claim C5 (counterexample): on a live board where black's only legal move
fills the board, the state produced by the human-move transition has
gameOver true but winner still null, although the piece-count winner of the
final board is black: the winner field is left unset by handleBlackMove. -/
theorem c5_counterexample :
    ((0, 0) ∈ StrangeOthello.c5State.validMoves) ∧
    StrangeOthello.c5State.currentTurn = StrangeOthello.Side.black ∧
    StrangeOthello.c5State.gameOver = false ∧
    (StrangeOthello.blackMoveState StrangeOthello.c5State 0 0).gameOver = true ∧
    (StrangeOthello.blackMoveState StrangeOthello.c5State 0 0).winner = none ∧
    StrangeOthello.determineWinner
      (StrangeOthello.blackMoveState StrangeOthello.c5State 0 0).board =
      StrangeOthello.Outcome.black := by
  decide

/-- Claim C5 (amended): every state produced by an accepted human move has
gameOver and currentTurn recomputed from the new board (terminal exactly
when neither side can move; the turn passes to white exactly when white can
move) and the two scores recomputed, but its winner field is always null,
even when the transition ends the game; every state produced by a computer
move has all of these recomputed and winner equal to the piece-count winner
exactly when the game is over. -/
theorem c5_amended_theorem :
    (∀ (s : StrangeOthello.GameState) (row col : Fin 6),
      s.currentTurn = StrangeOthello.Side.black → s.gameOver = false →
      (row, col) ∈ s.validMoves →
      ((StrangeOthello.blackMoveState s row col).gameOver = true ↔
        (StrangeOthello.findValidMoves (StrangeOthello.blackMoveState s row col).board
            StrangeOthello.Side.white = [] ∧
         StrangeOthello.findValidMoves (StrangeOthello.blackMoveState s row col).board
            StrangeOthello.Side.black = [])) ∧
      (StrangeOthello.blackMoveState s row col).currentTurn =
        (if StrangeOthello.findValidMoves (StrangeOthello.blackMoveState s row col).board
            StrangeOthello.Side.white = []
         then StrangeOthello.Side.black else StrangeOthello.Side.white) ∧
      (StrangeOthello.blackMoveState s row col).blackScore =
        StrangeOthello.countPieces (StrangeOthello.blackMoveState s row col).board
          StrangeOthello.Side.black ∧
      (StrangeOthello.blackMoveState s row col).whiteScore =
        StrangeOthello.countPieces (StrangeOthello.blackMoveState s row col).board
          StrangeOthello.Side.white ∧
      (StrangeOthello.blackMoveState s row col).winner = none) ∧
    (∀ (s : StrangeOthello.GameState) (mv : StrangeOthello.Pos),
      ((StrangeOthello.whiteMoveState s mv).gameOver = true ↔
        (StrangeOthello.findValidMoves (StrangeOthello.whiteMoveState s mv).board
            StrangeOthello.Side.black = [] ∧
         StrangeOthello.findValidMoves (StrangeOthello.whiteMoveState s mv).board
            StrangeOthello.Side.white = [])) ∧
      (StrangeOthello.whiteMoveState s mv).currentTurn =
        (if StrangeOthello.findValidMoves (StrangeOthello.whiteMoveState s mv).board
            StrangeOthello.Side.black = []
         then StrangeOthello.Side.white else StrangeOthello.Side.black) ∧
      (StrangeOthello.whiteMoveState s mv).blackScore =
        StrangeOthello.countPieces (StrangeOthello.whiteMoveState s mv).board
          StrangeOthello.Side.black ∧
      (StrangeOthello.whiteMoveState s mv).whiteScore =
        StrangeOthello.countPieces (StrangeOthello.whiteMoveState s mv).board
          StrangeOthello.Side.white ∧
      ((StrangeOthello.whiteMoveState s mv).gameOver = true →
        (StrangeOthello.whiteMoveState s mv).winner =
          some (StrangeOthello.determineWinner (StrangeOthello.whiteMoveState s mv).board)) ∧
      ((StrangeOthello.whiteMoveState s mv).gameOver = false →
        (StrangeOthello.whiteMoveState s mv).winner = none)) := by
  constructor
  · intro s row col hturn hover hmem
    by_cases hw : StrangeOthello.findValidMoves
        (StrangeOthello.placePiece s.board row col StrangeOthello.Side.black)
        StrangeOthello.Side.white = []
    · simp [StrangeOthello.blackMoveState, hw, List.length_eq_zero]
    · simp [StrangeOthello.blackMoveState, hw, List.length_eq_zero,
        List.length_pos.mpr hw, Nat.pos_iff_ne_zero]
  · intro s mv
    by_cases hb : StrangeOthello.findValidMoves
        (StrangeOthello.placePiece s.board mv.1 mv.2 StrangeOthello.Side.white)
        StrangeOthello.Side.black = []
    · by_cases hw : StrangeOthello.findValidMoves
          (StrangeOthello.placePiece s.board mv.1 mv.2 StrangeOthello.Side.white)
          StrangeOthello.Side.white = []
      · simp [StrangeOthello.whiteMoveState, hb, hw, List.length_eq_zero]
      · simp [StrangeOthello.whiteMoveState, hb, hw, List.length_eq_zero,
          List.length_pos.mpr hw, Nat.pos_iff_ne_zero]
    · simp [StrangeOthello.whiteMoveState, hb, List.length_eq_zero,
        List.length_pos.mpr hb, Nat.pos_iff_ne_zero]

/-- Witness for the amended claim C5: the winner clauses at the concrete
state of the counterexample. -/
theorem c5_amended_witness :
    (StrangeOthello.blackMoveState StrangeOthello.c5State 0 0).winner = none ∧
    ((StrangeOthello.whiteMoveState StrangeOthello.c5State ((0 : Fin 6), (0 : Fin 6))).gameOver = false →
      (StrangeOthello.whiteMoveState StrangeOthello.c5State ((0 : Fin 6), (0 : Fin 6))).winner = none) :=
  ⟨(c5_amended_theorem.1 StrangeOthello.c5State 0 0 rfl rfl (by decide)).2.2.2.2,
   (c5_amended_theorem.2 StrangeOthello.c5State ((0 : Fin 6), (0 : Fin 6))).2.2.2.2.2⟩

/-- Taking all but the last two entries of a history extended by two
snapshots recovers the original history. -/
theorem take_append_two {α : Type} (l : List α) (a b : α) :
    (l ++ [a, b]).take ((l ++ [a, b]).length - 2) = l := by
  simp [List.take_left]

/-- The entry two from the end of a history extended by two snapshots is the
first of the two. -/
theorem getD_append_two {α : Type} (l : List α) (a b d : α) :
    (l ++ [a, b]).getD ((l ++ [a, b]).length - 2) d = a := by
  have h : (l ++ [a, b]).length - 2 = l.length := by simp
  rw [h, List.getD_eq_getElem?_getD, List.getElem?_append_right (Nat.le_refl _)]
  simp

/-- getLastD through a known getLast?. -/
theorem getLastD_of_getLast? {α : Type} (l : List α) (s d : α)
    (h : l.getLast? = some s) : l.getLastD d = s := by
  rw [List.getLastD_eq_getLast?, h]
  rfl

namespace PieceTaking

/-- confirmPlayerMove always hands the turn to the AI. -/
theorem confirm_turn (s : GameState) : (confirmPlayerMove s).currentTurn = NimTurn.ai := by
  cases hc : s.selectedColor
  · rw [confirm_eq_blue s hc]
    split
    · rfl
    · exact (reselect_fields _).2.2.2.1
  · rw [confirm_eq_yellow s hc]
    split
    · rfl
    · exact (reselect_fields _).2.2.2.1
  · rw [confirm_eq_red s hc]
    split
    · rfl
    · exact (reselect_fields _).2.2.2.1

end PieceTaking

namespace StrangeOthello

/-- On a live white turn the AI effect always pushes exactly one new state
through updateGameState, whichever branch it takes. -/
theorem aiWhiteStep_pushes (p : List GameState × GameState)
    (hturn : p.2.currentTurn = Side.white) (hover : p.2.gameOver = false) :
    ∃ x, aiWhiteStep p = (p.1 ++ [x], x) := by
  rw [aiWhiteStep, if_pos ⟨hturn, hover⟩]
  cases hm : (minimax 4 p.2.board NEG_INFINITY POS_INFINITY true).move with
  | some mv => exact ⟨whiteMoveState p.2 mv, rfl⟩
  | none =>
    by_cases hbv : (findValidMoves p.2.board Side.black).length = 0
    · refine ⟨({ p.2 with gameOver := true, winner := some (determineWinner p.2.board) } : GameState), ?_⟩
      rw [if_pos hbv]
      rfl
    · refine ⟨({ p.2 with currentTurn := Side.black, validMoves := findValidMoves p.2.board Side.black } : GameState), ?_⟩
      rw [if_neg hbv]
      rfl

end StrangeOthello

namespace StrangeOthello

/-- Full-round round trip on the Othello page: an accepted black move
followed by the AI reply and one undo restores the exact previous
controller state (history and current state), provided the current state is
the last history entry as the page maintains. -/
theorem othRoundTrip (H : List GameState) (s : GameState) (row col : Fin 6)
    (hlast : H.getLast? = some s)
    (hturn : s.currentTurn = Side.black) (hover : s.gameOver = false)
    (hmem : (row, col) ∈ s.validMoves)
    (hturn1 : (blackMoveState s row col).currentTurn = Side.white)
    (hover1 : (blackMoveState s row col).gameOver = false) :
    handleUndo (aiWhiteStep (handleBlackMove (H, s) row col)) = (H, s) := by
  have hne : H ≠ [] := by
    intro h
    rw [h] at hlast
    simp at hlast
  have hlen : 1 ≤ H.length := List.length_pos.mpr hne
  have hbm : handleBlackMove (H, s) row col =
      (H ++ [blackMoveState s row col], blackMoveState s row col) := by
    rw [handleBlackMove]
    rw [if_neg (by simp [hturn, hover, hmem])]
    rfl
  rw [hbm]
  obtain ⟨x, hx⟩ := aiWhiteStep_pushes
    (H ++ [blackMoveState s row col], blackMoveState s row col) hturn1 hover1
  rw [hx]
  have hassoc : (H ++ [blackMoveState s row col]) ++ [x] =
      H ++ [blackMoveState s row col, x] := by simp
  rw [hassoc, handleUndo]
  rw [if_pos (by
    simp only [List.length_append, List.length_cons, List.length_nil]
    omega)]
  rw [take_append_two]
  show (H, H.getLastD x) = (H, s)
  rw [getLastD_of_getLast? H s x hlast]

end StrangeOthello

namespace PieceTaking

/-- Full-round round trip on the piece-taking page: a confirmed player move
followed by the AI reply and one undo restores the exact previous
controller state, for every history, state and random realisation, as long
as the player's move does not end the game. -/
theorem nimRoundTrip (H : List GameState) (s : GameState)
    (rho : GameState → NimColor × Nat)
    (hover1 : (confirmPlayerMove s).gameOver = false) :
    undoLastMove (aiStepH rho (confirmPlayerMoveH (H, s))) = (H, s) := by
  have h1 : confirmPlayerMoveH (H, s) = (H ++ [s], confirmPlayerMove s) := rfl
  rw [h1]
  have h2 : aiStepH rho (H ++ [s], confirmPlayerMove s) =
      ((H ++ [s]) ++ [confirmPlayerMove s], aiStep rho (confirmPlayerMove s)) := by
    rw [aiStepH, if_pos ⟨confirm_turn s, hover1⟩]
    rfl
  rw [h2]
  have hassoc : (H ++ [s]) ++ [confirmPlayerMove s] = H ++ [s, confirmPlayerMove s] := by
    simp
  rw [hassoc, undoLastMove]
  rw [if_neg (by
    simp only [List.length_append, List.length_cons, List.length_nil]
    omega)]
  rw [take_append_two]
  show (H, (H ++ [s, confirmPlayerMove s]).getD
    ((H ++ [s, confirmPlayerMove s]).length - 2) (aiStep rho (confirmPlayerMove s))) = (H, s)
  rw [getD_append_two]

end PieceTaking

/-- Claim C6 (counterexample): after the first human move of the Othello
page, while the computer has not yet replied, undo does not remove the
human move: the history (two entries) is below the three-entry threshold,
so handleUndo leaves both the history and the current state unchanged and
the prior state is not restored. -/
theorem c6_counterexample :
    (StrangeOthello.handleBlackMove StrangeOthello.initialPair 3 4).2.currentTurn =
      StrangeOthello.Side.white ∧
    (StrangeOthello.handleBlackMove StrangeOthello.initialPair 3 4).1.length = 2 ∧
    StrangeOthello.handleUndo (StrangeOthello.handleBlackMove StrangeOthello.initialPair 3 4) =
      StrangeOthello.handleBlackMove StrangeOthello.initialPair 3 4 ∧
    (StrangeOthello.handleBlackMove StrangeOthello.initialPair 3 4).2.board 3 4 =
      StrangeOthello.CellState.black ∧
    StrangeOthello.initialGameState.board 3 4 = StrangeOthello.CellState.empty := by
  decide

/-- Claim C6 (amended): in both games, a legal human move followed by the
computer's reply and one undo restores the exact prior controller state
(history and current state, deep equality); but when the computer has not
yet replied the undo does not remove just the human move: both pages only
ever drop snapshots two at a time, and with too short a history they do
nothing at all. -/
theorem c6_amended_theorem :
    (∀ (H : List StrangeOthello.GameState) (s : StrangeOthello.GameState) (row col : Fin 6),
      H.getLast? = some s → s.currentTurn = StrangeOthello.Side.black →
      s.gameOver = false → (row, col) ∈ s.validMoves →
      (StrangeOthello.blackMoveState s row col).currentTurn = StrangeOthello.Side.white →
      (StrangeOthello.blackMoveState s row col).gameOver = false →
      StrangeOthello.handleUndo (StrangeOthello.aiWhiteStep
        (StrangeOthello.handleBlackMove (H, s) row col)) = (H, s)) ∧
    (∀ (H : List PieceTaking.GameState) (s : PieceTaking.GameState)
      (rho : PieceTaking.GameState → PieceTaking.NimColor × Nat),
      (PieceTaking.confirmPlayerMove s).gameOver = false →
      PieceTaking.undoLastMove (PieceTaking.aiStepH rho
        (PieceTaking.confirmPlayerMoveH (H, s))) = (H, s)) :=
  ⟨fun H s row col h1 h2 h3 h4 h5 h6 =>
      StrangeOthello.othRoundTrip H s row col h1 h2 h3 h4 h5 h6,
   fun H s rho h => PieceTaking.nimRoundTrip H s rho h⟩

/-- Witness for the amended claim C6: the round trip at the initial states
of the two pages. -/
theorem c6_amended_witness :
    StrangeOthello.handleUndo (StrangeOthello.aiWhiteStep
      (StrangeOthello.handleBlackMove
        ([StrangeOthello.initialGameState], StrangeOthello.initialGameState) 3 4)) =
      ([StrangeOthello.initialGameState], StrangeOthello.initialGameState) ∧
    PieceTaking.undoLastMove (PieceTaking.aiStepH PieceTaking.rhoBlueOne
      (PieceTaking.confirmPlayerMoveH ([PieceTaking.initState], PieceTaking.initState))) =
      ([PieceTaking.initState], PieceTaking.initState) :=
  ⟨c6_amended_theorem.1 [StrangeOthello.initialGameState] StrangeOthello.initialGameState
      3 4 rfl rfl rfl (by decide) (by decide) (by decide),
   c6_amended_theorem.2 [PieceTaking.initState] PieceTaking.initState
      PieceTaking.rhoBlueOne (by decide)⟩

/-- Claim C7: in both revisions of the Mod-M game, whenever the running sum
immediately after a play is a multiple of M the resulting state is terminal
with the side that did not just play as winner; and in the concrete
scenario (N = 5, M = 7 in the earlier revision, the one whose modulus is 7)
playing card 2 and then card 5 reaches sum 7, the game becomes terminal
exactly at that second play, and the side that played the 5 (the AI here)
loses. -/
theorem c7_theorem :
    (∀ (s : ModM.GameState) (card : Nat) (pl : ModM.MPlayer),
      (s.sum + card) % s.m = 0 →
      (ModM.playCard card pl s).gameOver = true ∧
      (ModM.playCard card pl s).winner = some pl.other) ∧
    (∀ (s : ModMLegacy.GameState) (card : Nat) (pl : ModM.MPlayer),
      (s.sum + card) % s.m = 0 →
      (ModMLegacy.playCard card pl s).gameOver = true ∧
      (ModMLegacy.playCard card pl s).winner = some pl.other) ∧
    ((ModMLegacy.initGame 5 7).gameOver = false ∧
     (ModMLegacy.playCard 2 ModM.MPlayer.player (ModMLegacy.initGame 5 7)).gameOver = false ∧
     (ModMLegacy.playCard 2 ModM.MPlayer.player (ModMLegacy.initGame 5 7)).sum = 2 ∧
     (ModMLegacy.playCard 5 ModM.MPlayer.ai (ModMLegacy.playCard 2 ModM.MPlayer.player
        (ModMLegacy.initGame 5 7))).sum = 7 ∧
     (ModMLegacy.playCard 5 ModM.MPlayer.ai (ModMLegacy.playCard 2 ModM.MPlayer.player
        (ModMLegacy.initGame 5 7))).gameOver = true ∧
     (ModMLegacy.playCard 5 ModM.MPlayer.ai (ModMLegacy.playCard 2 ModM.MPlayer.player
        (ModMLegacy.initGame 5 7))).winner = some ModM.MPlayer.player) := by
  refine ⟨?_, ?_, by decide⟩
  · intro s card pl h
    cases pl <;> simp [ModM.playCard, h]
  · intro s card pl h
    cases pl <;> simp [ModMLegacy.playCard, h]

/-- Witness for claim C7: a sudden-death play in each revision. -/
theorem c7_witness :
    ((ModM.c8State.sum + 5) % ModM.c8State.m = 0) ∧
    (ModM.playCard 5 ModM.MPlayer.player ModM.c8State).gameOver = true ∧
    (ModM.playCard 5 ModM.MPlayer.player ModM.c8State).winner = some ModM.MPlayer.ai ∧
    (((ModMLegacy.initGame 5 7).sum + 7) % (ModMLegacy.initGame 5 7).m = 0) ∧
    (ModMLegacy.playCard 7 ModM.MPlayer.ai (ModMLegacy.initGame 5 7)).gameOver = true ∧
    (ModMLegacy.playCard 7 ModM.MPlayer.ai (ModMLegacy.initGame 5 7)).winner =
      some ModM.MPlayer.player :=
  ⟨by decide,
   (c7_theorem.1 ModM.c8State 5 ModM.MPlayer.player (by decide)).1,
   (c7_theorem.1 ModM.c8State 5 ModM.MPlayer.player (by decide)).2,
   by decide,
   (c7_theorem.2.1 (ModMLegacy.initGame 5 7) 7 ModM.MPlayer.ai (by decide)).1,
   (c7_theorem.2.1 (ModMLegacy.initGame 5 7) 7 ModM.MPlayer.ai (by decide)).2⟩

/-- Claim C8 (counterexample): in the shipped Mod-M page a card that is not
in the player's hand, submitted on the player's turn, is not rejected:
handleCardSelect pushes the state to the history and plays the card, adding
its value to the sum. -/
theorem c8_counterexample :
    (9 ∉ ModM.c8State.playerCards) ∧
    ModM.c8State.currentTurn = ModM.MPlayer.player ∧
    ModM.c8State.gameOver = false ∧
    ModM.handleCardSelect 9 ([], ModM.c8State) =
      ([ModM.c8State], ModM.playCard 9 ModM.MPlayer.player ModM.c8State) ∧
    (ModM.playCard 9 ModM.MPlayer.player ModM.c8State).sum = 13 ∧
    ModM.playCard 9 ModM.MPlayer.player ModM.c8State ≠ ModM.c8State := by
  decide

/-- Claim C8 (amended): the Othello page silently rejects every submission
that is out of turn, on a finished game or not in the valid-move set, with
no state change and no history push; the Mod-M page silently rejects
submissions that are out of turn or on a finished game, but does not check
that the card is in the player's hand. -/
theorem c8_amended_theorem :
    (∀ (p : List StrangeOthello.GameState × StrangeOthello.GameState) (row col : Fin 6),
      (p.2.currentTurn ≠ StrangeOthello.Side.black ∨ p.2.gameOver = true ∨
        (row, col) ∉ p.2.validMoves) →
      StrangeOthello.handleBlackMove p row col = p) ∧
    (∀ (p : List ModM.GameState × ModM.GameState) (card : Nat),
      (p.2.currentTurn ≠ ModM.MPlayer.player ∨ p.2.gameOver = true) →
      ModM.handleCardSelect card p = p) := by
  constructor
  · intro p row col h
    simp only [StrangeOthello.handleBlackMove]
    rw [if_pos h]
  · intro p card h
    rw [ModM.handleCardSelect, if_pos h]

/-- Witness for the amended claim C8: an out-of-set Othello submission and
an out-of-turn Mod-M submission are both no-ops. -/
theorem c8_amended_witness :
    StrangeOthello.handleBlackMove StrangeOthello.initialPair 0 0 =
      StrangeOthello.initialPair ∧
    ModM.handleCardSelect 3 ([], ModM.initState) = ([], ModM.initState) :=
  ⟨c8_amended_theorem.1 StrangeOthello.initialPair 0 0 (Or.inr (Or.inr (by decide))),
   c8_amended_theorem.2 ([], ModM.initState) 3 (Or.inl (by decide))⟩

/-- Claim C10: in the shipped Mod-M page (N = 5, M = 9, the computer moves
first), a play that empties both hands with a sum that is not a multiple of
M ends the game with the computer as winner (the earlier revision instead
declares the human player winner on exhaustion), while the page's own
minimax scores the exhausted terminal -1, a bad outcome for the maximizing
computer side. -/
theorem c10_theorem :
    (∀ (s : ModM.GameState) (card : Nat) (pl : ModM.MPlayer),
      (s.sum + card) % s.m ≠ 0 →
      (ModM.playCard card pl s).playerCards = [] →
      (ModM.playCard card pl s).aiCards = [] →
      (ModM.playCard card pl s).gameOver = true ∧
      (ModM.playCard card pl s).winner = some ModM.MPlayer.ai) ∧
    (∀ (s : ModMLegacy.GameState) (card : Nat) (pl : ModM.MPlayer),
      (s.sum + card) % s.m ≠ 0 →
      (ModMLegacy.playCard card pl s).playerCards = [] →
      (ModMLegacy.playCard card pl s).aiCards = [] →
      (ModMLegacy.playCard card pl s).gameOver = true ∧
      (ModMLegacy.playCard card pl s).winner = some ModM.MPlayer.player) ∧
    (∀ (m sum : Nat) (isMaximizing : Bool) (depth : Nat) (alpha beta : Int),
      ModM.minimax m [] [] sum isMaximizing depth alpha beta =
        some { score := -1, card := none }) := by
  refine ⟨?_, ?_, ?_⟩
  · intro s card pl hmod hp ha
    cases pl <;>
      simp only [ModM.playCard, if_neg hmod, apply_ite ModM.GameState.playerCards,
        apply_ite ModM.GameState.aiCards, ite_self] at hp ha <;>
      simp [ModM.playCard, if_neg hmod, hp, ha]
  · intro s card pl hmod hp ha
    cases pl <;>
      simp only [ModMLegacy.playCard, if_neg hmod,
        apply_ite ModMLegacy.GameState.playerCards,
        apply_ite ModMLegacy.GameState.aiCards, ite_self] at hp ha <;>
      simp [ModMLegacy.playCard, if_neg hmod, hp, ha]
  · intro m sum isMaximizing depth alpha beta
    rfl

/-- Witness for claim C10: emptying plays in both revisions and the search
value of the exhausted terminal. -/
theorem c10_witness :
    (let s : ModM.GameState := { ModM.c8State with playerCards := [3], aiCards := [] }
     ((s.sum + 3) % s.m ≠ 0) ∧
     (ModM.playCard 3 ModM.MPlayer.player s).playerCards = [] ∧
     (ModM.playCard 3 ModM.MPlayer.player s).aiCards = [] ∧
     (ModM.playCard 3 ModM.MPlayer.player s).gameOver = true ∧
     (ModM.playCard 3 ModM.MPlayer.player s).winner = some ModM.MPlayer.ai) ∧
    (let t : ModMLegacy.GameState :=
       { ModMLegacy.initGame 5 7 with playerCards := [3], aiCards := [], sum := 1 }
     ((t.sum + 3) % t.m ≠ 0) ∧
     (ModMLegacy.playCard 3 ModM.MPlayer.player t).gameOver = true ∧
     (ModMLegacy.playCard 3 ModM.MPlayer.player t).winner = some ModM.MPlayer.player) ∧
    ModM.minimax 9 [] [] 30 true 10 ModM.NEG_INFINITY ModM.POS_INFINITY =
      some { score := -1, card := none } :=
  ⟨⟨by decide, by decide, by decide,
    (c10_theorem.1 { ModM.c8State with playerCards := [3], aiCards := [] } 3
      ModM.MPlayer.player (by decide) (by decide) (by decide)).1,
    (c10_theorem.1 { ModM.c8State with playerCards := [3], aiCards := [] } 3
      ModM.MPlayer.player (by decide) (by decide) (by decide)).2⟩,
   ⟨by decide,
    (c10_theorem.2.1 { ModMLegacy.initGame 5 7 with playerCards := [3], aiCards := [], sum := 1 }
      3 ModM.MPlayer.player (by decide) (by decide) (by decide)).1,
    (c10_theorem.2.1 { ModMLegacy.initGame 5 7 with playerCards := [3], aiCards := [], sum := 1 }
      3 ModM.MPlayer.player (by decide) (by decide) (by decide)).2⟩,
   c10_theorem.2.2 9 30 true 10 ModM.NEG_INFINITY ModM.POS_INFINITY⟩

namespace StrangeOthello

/-- The maximizing loop returns a value whenever every recursive call
does. -/
theorem maxLoop_isSome (recur : Board → Int → Int → Option SearchResult) (board : Board)
    (hrec : ∀ b' a' b'', (recur b' a' b'').isSome = true) :
    ∀ (moves : List Pos) (alpha beta best : Int) (bestMove : Option Pos),
      (maxLoop recur board moves alpha beta best bestMove).isSome = true := by
  intro moves
  induction moves with
  | nil =>
    intro alpha beta best bestMove
    simp [maxLoop]
  | cons mv rest ih =>
    intro alpha beta best bestMove
    obtain ⟨r, hr⟩ := Option.isSome_iff_exists.mp
      (hrec (placePiece board mv.1 mv.2 Side.white) alpha beta)
    rw [maxLoop]
    simp only [hr]
    by_cases hb : beta ≤ max alpha r.score
    · simp [hb]
    · simp only [if_neg hb]
      exact ih _ _ _ _

/-- The minimizing loop returns a value whenever every recursive call
does. -/
theorem minLoop_isSome (recur : Board → Int → Int → Option SearchResult) (board : Board)
    (hrec : ∀ b' a' b'', (recur b' a' b'').isSome = true) :
    ∀ (moves : List Pos) (alpha beta best : Int) (bestMove : Option Pos),
      (minLoop recur board moves alpha beta best bestMove).isSome = true := by
  intro moves
  induction moves with
  | nil =>
    intro alpha beta best bestMove
    simp [minLoop]
  | cons mv rest ih =>
    intro alpha beta best bestMove
    obtain ⟨r, hr⟩ := Option.isSome_iff_exists.mp
      (hrec (placePiece board mv.1 mv.2 Side.black) alpha beta)
    rw [minLoop]
    simp only [hr]
    by_cases hb : min beta r.score ≤ alpha
    · simp [hb]
    · simp only [if_neg hb]
      exact ih _ _ _ _

/-- Fuel one more than the depth always suffices for the Othello search:
each recursive call consumes one depth. -/
theorem minimaxAux_isSome :
    ∀ (fuel depth : Nat), depth < fuel →
      ∀ (board : Board) (alpha beta : Int) (maximizingPlayer : Bool),
        (minimaxAux fuel depth board alpha beta maximizingPlayer).isSome = true := by
  intro fuel
  induction fuel with
  | zero =>
    intro depth h
    omega
  | succ f ih =>
    intro depth h board alpha beta maximizingPlayer
    rw [minimaxAux]
    by_cases hleaf : depth = 0 ∨
        findValidMoves board (if maximizingPlayer then Side.white else Side.black) = []
    · simp [hleaf]
    · rw [if_neg hleaf]
      have hd : depth ≠ 0 := fun h0 => hleaf (Or.inl h0)
      cases maximizingPlayer with
      | true =>
        rw [if_pos rfl]
        exact maxLoop_isSome _ board
          (fun b' a' b'' => ih (depth - 1) (by omega) b' a' b'' false) _ _ _ _ _
      | false =>
        rw [if_neg (by simp)]
        exact minLoop_isSome _ board
          (fun b' a' b'' => ih (depth - 1) (by omega) b' a' b'' true) _ _ _ _ _

end StrangeOthello

namespace ModM

/-- Removing a present card with filter strictly shortens the hand. -/
theorem filter_ne_length_lt (l : List Nat) (a : Nat) (h : a ∈ l) :
    (l.filter (fun c => c != a)).length < l.length := by
  induction l with
  | nil => simp at h
  | cons b t ih =>
    rcases List.mem_cons.mp h with rfl | ht
    · simp only [List.filter_cons, bne_self_eq_false, Bool.false_eq_true, if_neg]
      exact Nat.lt_succ_of_le (List.length_filter_le _ t)
    · by_cases hba : (b != a) = true
      · simp only [List.filter_cons, hba, if_pos]
        simpa using ih ht
      · simp only [List.filter_cons, hba, if_neg]
        exact Nat.lt_succ_of_lt (ih ht)

/-- The maximizing loop of the Mod-M search returns a value whenever every
recursive call on a hand obtained by removing an iterated card does. -/
theorem mmMaxLoop_isSome (m : Nat) (aiCards : List Nat) (sum depth : Nat)
    (recur : List Nat → Nat → Int → Int → Option SearchResult)
    (hrec : ∀ (card : Nat) (s' : Nat) (a' b' : Int), card ∈ aiCards →
      (recur (aiCards.filter (fun c => c != card)) s' a' b').isSome = true) :
    ∀ (cards : List Nat), (∀ x ∈ cards, x ∈ aiCards) →
      ∀ (alpha beta best : Int) (bestCard : Option Nat),
      (maxLoop m aiCards sum depth recur cards alpha beta best bestCard).isSome = true := by
  intro cards
  induction cards with
  | nil =>
    intro _ alpha beta best bestCard
    simp [maxLoop]
  | cons card rest ih =>
    intro hsub alpha beta best bestCard
    rw [maxLoop]
    by_cases hm : (sum + card) % m = 0
    · rw [if_pos hm]
      exact ih (fun x hx => hsub x (List.mem_cons_of_mem _ hx)) _ _ _ _
    · rw [if_neg hm]
      obtain ⟨r, hr⟩ := Option.isSome_iff_exists.mp
        (hrec card (sum + card) alpha beta (hsub card (List.mem_cons_self _ _)))
      simp only [hr]
      by_cases hb : beta ≤ max alpha (if r.score > best then r.score else best)
      · simp [hb]
      · simp only [if_neg hb]
        exact ih (fun x hx => hsub x (List.mem_cons_of_mem _ hx)) _ _ _ _

/-- The minimizing loop of the Mod-M search returns a value whenever every
recursive call on a hand obtained by removing an iterated card does. -/
theorem mmMinLoop_isSome (m : Nat) (playerCards : List Nat) (sum depth : Nat)
    (recur : List Nat → Nat → Int → Int → Option SearchResult)
    (hrec : ∀ (card : Nat) (s' : Nat) (a' b' : Int), card ∈ playerCards →
      (recur (playerCards.filter (fun c => c != card)) s' a' b').isSome = true) :
    ∀ (cards : List Nat), (∀ x ∈ cards, x ∈ playerCards) →
      ∀ (alpha beta best : Int) (bestCard : Option Nat),
      (minLoop m playerCards sum depth recur cards alpha beta best bestCard).isSome = true := by
  intro cards
  induction cards with
  | nil =>
    intro _ alpha beta best bestCard
    simp [minLoop]
  | cons card rest ih =>
    intro hsub alpha beta best bestCard
    rw [minLoop]
    by_cases hm : (sum + card) % m = 0
    · rw [if_pos hm]
      exact ih (fun x hx => hsub x (List.mem_cons_of_mem _ hx)) _ _ _ _
    · rw [if_neg hm]
      obtain ⟨r, hr⟩ := Option.isSome_iff_exists.mp
        (hrec card (sum + card) alpha beta (hsub card (List.mem_cons_self _ _)))
      simp only [hr]
      by_cases hb : min beta (if r.score < best then r.score else best) ≤ alpha
      · simp [hb]
      · simp only [if_neg hb]
        exact ih (fun x hx => hsub x (List.mem_cons_of_mem _ hx)) _ _ _ _

end ModM

namespace ModM

/-- Loop step of the fuel-sufficiency proof: a node whose side to move has
cards returns a value from fuel 2n + 3 on, given the induction hypothesis
for smaller hand totals. -/
theorem mmAux_loopCase (n : Nat)
    (ih : ∀ (p a : List Nat), p.length + a.length ≤ n →
      ∀ (fuel : Nat), 2 * n + 2 ≤ fuel →
      ∀ (m sum : Nat) (isMax : Bool) (depth : Nat) (alpha beta : Int),
        (minimaxAux fuel m p a sum isMax depth alpha beta).isSome = true)
    (p a : List Nat) (hlen : p.length + a.length ≤ n + 1)
    (isMax : Bool) (hcur : (if isMax then a else p) ≠ [])
    (hboth : ¬(p = [] ∧ a = []))
    (fuel : Nat) (hfuel : 2 * n + 3 ≤ fuel)
    (m sum : Nat) (depth : Nat) (alpha beta : Int) :
    (minimaxAux fuel m p a sum isMax depth alpha beta).isSome = true := by
  obtain ⟨f, rfl⟩ : ∃ f, fuel = f + 1 := ⟨fuel - 1, by omega⟩
  rw [minimaxAux, if_neg hboth, if_neg hcur]
  cases isMax with
  | true =>
    have ha : a ≠ [] := by simpa using hcur
    rw [if_pos rfl]
    apply mmMaxLoop_isSome
    · intro card s' a' b' hmem
      apply ih
      · have := filter_ne_length_lt a card hmem
        omega
      · omega
    · exact fun x hx => hx
  | false =>
    have hp : p ≠ [] := by simpa using hcur
    rw [if_neg (by simp)]
    apply mmMinLoop_isSome
    · intro card s' a' b' hmem
      apply ih
      · have := filter_ne_length_lt p card hmem
        omega
      · omega
    · exact fun x hx => hx

/-- Fuel 2 times the number of cards in play plus 2 always suffices for the
Mod-M search: the pass move can happen at most once in a row, and every
played card shrinks a hand. -/
theorem mmAux_isSome :
    ∀ (n : Nat) (p a : List Nat), p.length + a.length ≤ n →
      ∀ (fuel : Nat), 2 * n + 2 ≤ fuel →
      ∀ (m sum : Nat) (isMax : Bool) (depth : Nat) (alpha beta : Int),
        (minimaxAux fuel m p a sum isMax depth alpha beta).isSome = true := by
  intro n
  induction n with
  | zero =>
    intro p a hlen fuel hfuel m sum isMax depth alpha beta
    have hp : p = [] := List.eq_nil_of_length_eq_zero (by omega)
    have ha : a = [] := List.eq_nil_of_length_eq_zero (by omega)
    subst hp
    subst ha
    obtain ⟨f, rfl⟩ : ∃ f, fuel = f + 1 := ⟨fuel - 1, by omega⟩
    rw [minimaxAux]
    simp
  | succ n ih =>
    intro p a hlen fuel hfuel m sum isMax depth alpha beta
    by_cases hboth : p = [] ∧ a = []
    · obtain ⟨f, rfl⟩ : ∃ f, fuel = f + 1 := ⟨fuel - 1, by omega⟩
      rw [minimaxAux, if_pos hboth]
      simp
    · by_cases hcur : (if isMax then a else p) = []
      · obtain ⟨f, rfl⟩ : ∃ f, fuel = f + 1 := ⟨fuel - 1, by omega⟩
        rw [minimaxAux, if_neg hboth, if_pos hcur]
        have hcur2 : (if !isMax then a else p) ≠ [] := by
          cases isMax <;> simp_all <;> tauto
        exact mmAux_loopCase n ih p a hlen (!isMax) hcur2 hboth f (by omega)
          m sum (depth + 1) alpha beta
      · exact mmAux_loopCase n ih p a hlen isMax hcur hboth fuel (by omega)
          m sum depth alpha beta

end ModM

/-- Claim C9: both searches terminate on every input with an explicit fuel
bound.  The Mod-M minimax (which has no depth cutoff and passes the turn
with unchanged hands when the side to move has no cards) returns a value
within 2 times the number of cards in play plus 2 recursive unfoldings, for
every pair of hands, sum, modulus and window, because a pass is never
followed by another pass and every played card shrinks a hand; the Othello
minimax returns a value within depth + 1 unfoldings for every board and
depth, in particular also when a side has zero legal moves. -/
theorem c9_theorem :
    (∀ (m sum : Nat) (playerCards aiCards : List Nat) (isMaximizing : Bool)
      (depth : Nat) (alpha beta : Int),
      (ModM.minimaxAux (2 * (playerCards.length + aiCards.length) + 2) m playerCards
        aiCards sum isMaximizing depth alpha beta).isSome = true) ∧
    (∀ (depth : Nat) (board : StrangeOthello.Board) (alpha beta : Int)
      (maximizingPlayer : Bool),
      (StrangeOthello.minimaxAux (depth + 1) depth board alpha beta
        maximizingPlayer).isSome = true) :=
  ⟨fun m sum p a isMax depth alpha beta =>
    ModM.mmAux_isSome (p.length + a.length) p a le_rfl _ le_rfl m sum isMax depth
      alpha beta,
   fun depth board alpha beta mp =>
    StrangeOthello.minimaxAux_isSome (depth + 1) depth (Nat.lt_succ_self _) board
      alpha beta mp⟩
